import Mathlib

/-!
Verification development for the txml-tss-renderer repository.

The TypeScript sources are shallowly embedded: strings are modelled as
`List Char` (wrapped in `String` at API boundaries), the hand-written
recursive-descent parsers become fuel-indexed total functions returning
`Except`, thrown parse errors become `.error` values carrying the thrown
message, and the mutable render context becomes explicit state passing.
The JavaScript whitespace class `\s` is modelled by its ASCII fragment,
which is all the development exercises.
-/

/-- ASCII fragment of the JavaScript `\s` character class used by the
parsers' `skipWhitespace`, `split(/\s+/)` and `String.prototype.trim`. -/
def isWsChar (c : Char) : Bool :=
  c = ' ' || c = '\t' || c = '\n' || c = '\r' || c = '\x0b' || c = '\x0c'

/-- The character class `[a-zA-Z0-9_-]` used by `parseTagName`,
`parseAttributeName` (xml-parser.ts) and `parseIdentifier` (tss-parser.ts). -/
def isNameChar (c : Char) : Bool :=
  c.isAlpha || c.isDigit || c = '_' || c = '-'

/-- Greedy scan: longest matching run and the rest.  This is the
`while (pos < len && test(s[pos])) pos++` loop shape of both parsers. -/
def spanP (p : Char → Bool) : List Char → List Char × List Char
  | [] => ([], [])
  | c :: cs =>
    if p c then
      let r := spanP p cs
      (c :: r.1, r.2)
    else ([], c :: cs)

/-- `skipWhitespace` of both parsers. -/
def dropWs : List Char → List Char
  | [] => []
  | c :: cs => if isWsChar c then dropWs cs else c :: cs

/-- JavaScript `String.prototype.trim` (on the ASCII whitespace fragment). -/
def trimCL (l : List Char) : List Char :=
  ((dropWs l).reverse |> dropWs).reverse

/-- `consume(expected)` of both parsers: `some rest` when `expected` is a
prefix of the input (cursor advanced past it), `none` otherwise. -/
def consumeP : List Char → List Char → Option (List Char)
  | [], l => some l
  | _ :: _, [] => none
  | p :: ps, c :: cs => if c = p then consumeP ps cs else none

/-- JavaScript record/Map assignment `m[k] = v`: overwrite in place when
the key exists, otherwise append (insertion order preserved). -/
def setEntry {α : Type} (m : List (String × α)) (k : String) (v : α) :
    List (String × α) :=
  if m.any (fun p => p.1 = k) then
    m.map (fun p => if p.1 = k then (k, v) else p)
  else m ++ [(k, v)]

/-- Element tree (`TXMLElement` of types.ts): an element node carries a
tag, attributes in insertion order, and interleaved element/text children. -/
inductive TXMLNode where
  | elem (tag : String) (attributes : List (String × String))
      (children : List TXMLNode)
  | text (s : String)

/-- The `tag` field of an element; `""` for a text node (text nodes are
never passed where an element is expected). -/
def TXMLNode.tag : TXMLNode → String
  | .elem t _ _ => t
  | .text _ => ""

def TXMLNode.children : TXMLNode → List TXMLNode
  | .elem _ _ cs => cs
  | .text _ => []

def TXMLNode.attributes : TXMLNode → List (String × String)
  | .elem _ a _ => a
  | .text _ => []

/-- `TXMLParseError` (the spec's `MarkupSyntaxError`): the thrown message.
Line/column diagnostics do not influence control flow and are omitted. -/
structure TXMLParseErr where
  msg : String

/-- `parseAttributeValue` of xml-parser.ts: a quoted (single or double)
value; scans to the matching quote, fails on a missing opening quote or on
an unterminated value. -/
def parseAttrValue (l : List Char) : Except TXMLParseErr (String × List Char) :=
  match consumeP ['"'] l with
  | some rest =>
    let r := spanP (fun c => !(c = '"')) rest
    match consumeP ['"'] r.2 with
    | some r2 => .ok (String.mk r.1, r2)
    | none => .error { msg := "Unclosed attribute value" }
  | none =>
    match consumeP ['\''] l with
    | some rest =>
      let r := spanP (fun c => !(c = '\'')) rest
      match consumeP ['\''] r.2 with
      | some r2 => .ok (String.mk r.1, r2)
      | none => .error { msg := "Unclosed attribute value" }
    | none => .error { msg := "Expected quoted attribute value" }

/-- `parseAttributes` of xml-parser.ts: whitespace-separated
`name="value"` pairs until `>` or `/` (or end of input), assigned into the
record in order.  Fuel bounds the loop; each successful iteration consumes
at least the `=`, so `input length + 1` fuel always suffices. -/
def parseAttrsF : Nat → List (String × String) → List Char →
    Except TXMLParseErr (List (String × String) × List Char)
  | 0, _, _ => .error { msg := "attribute loop out of fuel" }
  | fuel + 1, acc, l =>
    let l1 := dropWs l
    match l1 with
    | [] => .ok (acc, [])
    | c :: _ =>
      if c = '>' || c = '/' then .ok (acc, l1)
      else
        let n := spanP isNameChar l1
        match consumeP ['='] n.2 with
        | none => .error { msg := "Expected = after attribute name" }
        | some l2 =>
          match parseAttrValue l2 with
          | .error e => .error e
          | .ok (v, l3) => parseAttrsF fuel (setEntry acc (String.mk n.1) v) l3

/-- `skipComment` of xml-parser.ts, after the `<!--` has been skipped:
scan forward to the first `-->` and drop it (or run to end of input). -/
def findCommentEnd : List Char → List Char
  | [] => []
  | c :: rest =>
    match consumeP ['-', '-', '>'] (c :: rest) with
    | some r => r
    | none => findCommentEnd rest

mutual

/-- `parseElement` of xml-parser.ts: `<` TagName Attributes then either a
self-closing `/>` or `>` children `</` TagName `>`, failing on a
mismatched closing tag with a message naming both tags.  Unknown tags only
warn (a side effect with no control-flow impact, dropped here). -/
def parseElemF : Nat → List Char → Except TXMLParseErr (TXMLNode × List Char)
  | 0, _ => .error { msg := "element parser out of fuel" }
  | fuel + 1, l =>
    match consumeP ['<'] l with
    | none => .error { msg := "Expected <" }
    | some l1 =>
      let tn := spanP isNameChar l1
      match parseAttrsF (tn.2.length + 1) [] tn.2 with
      | .error e => .error e
      | .ok (attrs, l3) =>
        match consumeP ['/', '>'] l3 with
        | some l4 => .ok (.elem (String.mk tn.1) attrs [], l4)
        | none =>
          match consumeP ['>'] l3 with
          | none => .error { msg := "Expected > or />" }
          | some l4 =>
            match parseChildrenF fuel l4 with
            | .error e => .error e
            | .ok (children, l5) =>
              match consumeP ['<', '/'] l5 with
              | none => .error { msg := "Expected closing tag" }
              | some l6 =>
                let cn := spanP isNameChar l6
                if String.mk cn.1 ≠ String.mk tn.1 then
                  .error { msg := "Mismatched closing tag: expected </" ++
                    String.mk tn.1 ++ "> but found </" ++ String.mk cn.1 ++ ">" }
                else
                  match consumeP ['>'] cn.2 with
                  | none => .error { msg := "Expected > in closing tag" }
                  | some l7 => .ok (.elem (String.mk tn.1) attrs children, l7)

/-- `parseChildren` of xml-parser.ts: per iteration skip whitespace, stop
at `</`, skip a `<!--  -->` comment, recurse into `<`-elements, otherwise
read text up to the next `<` and keep it (untrimmed) when its trim is
non-empty. -/
def parseChildrenF : Nat → List Char →
    Except TXMLParseErr (List TXMLNode × List Char)
  | 0, _ => .error { msg := "children parser out of fuel" }
  | fuel + 1, l =>
    match l with
    | [] => .ok ([], [])
    | _ :: _ =>
      let l1 := dropWs l
      if (consumeP ['<', '/'] l1).isSome then .ok ([], l1)
      else
        match l1 with
        | [] => .ok ([], [])
        | c :: l2 =>
          if c = '<' then
            if (consumeP ['<', '!', '-', '-'] (c :: l2)).isSome then
              parseChildrenF fuel (findCommentEnd ((c :: l2).drop 4))
            else
              match parseElemF fuel (c :: l2) with
              | .error e => .error e
              | .ok (el, r1) =>
                match parseChildrenF fuel r1 with
                | .error e => .error e
                | .ok (cs, r2) => .ok (el :: cs, r2)
          else
            let t := spanP (fun d => !(d = '<')) (c :: l2)
            match parseChildrenF fuel t.2 with
            | .error e => .error e
            | .ok (cs, r2) =>
              .ok ((if (trimCL t.1).isEmpty then cs
                    else TXMLNode.text (String.mk t.1) :: cs), r2)

end

/-- `TXMLParser.parse` / `parseTXML` of xml-parser.ts: trim the input,
require a leading `<`, parse the root element, require its tag to be
exactly `App`, and reject trailing non-whitespace content. -/
def parseTXML (s : String) : Except TXMLParseErr TXMLNode :=
  let l := dropWs (trimCL s.data)
  if l.head? = some '<' then
    match parseElemF (l.length + 1) l with
    | .error e => .error e
    | .ok (root, rest) =>
      if root.tag ≠ "App" then
        .error { msg := "Root element must be <App>" }
      else if (dropWs rest).isEmpty then .ok root
      else .error { msg := "Unexpected content after root element" }
  else .error { msg := "Expected XML document to start with <" }

/-- The escaping applied per character of an attribute value by
`jsxToTXML` (jsx-runtime.ts).  The source applies five global `replace`
passes in the order `&`, `"`, `'`, `<`, `>`; since no replacement output
contains a character targeted by a later pass, that equals this single
per-character map. -/
def escAttrChar (c : Char) : List Char :=
  if c = '&' then ('&' :: 'a' :: 'm' :: 'p' :: [';'])
  else if c = '"' then ('&' :: 'q' :: 'u' :: 'o' :: 't' :: [';'])
  else if c = '\'' then ('&' :: '#' :: '3' :: '9' :: [';'])
  else if c = '<' then ('&' :: 'l' :: 't' :: [';'])
  else if c = '>' then ('&' :: 'g' :: 't' :: [';'])
  else [c]

def escAttr (l : List Char) : List Char := (l.map escAttrChar).flatten

/-- The `attrsStr` built by `jsxToTXML`: `key="escaped"` entries joined
with single spaces. -/
def serAttrsCore : List (String × String) → List Char
  | [] => []
  | [(k, v)] => k.data ++ '=' :: '"' :: (escAttr v.data ++ ['"'])
  | (k, v) :: rest =>
    k.data ++ '=' :: '"' :: (escAttr v.data ++ '"' :: ' ' :: serAttrsCore rest)

mutual

/-- `jsxToTXML` of jsx-runtime.ts on the character-list level: a string
child is emitted verbatim; an element with no children is serialized
self-closing as `<Tag attrs />`, otherwise as `<Tag attrs>…</Tag>`. -/
def serNode : TXMLNode → List Char
  | .text s => s.data
  | .elem tag attrs children =>
    let a := serAttrsCore attrs
    let pre := '<' :: (tag.data ++ (if a.isEmpty then [] else ' ' :: a))
    match children with
    | [] => pre ++ ' ' :: '/' :: '>' :: []
    | _ :: _ =>
      pre ++ '>' :: (serKids children ++ '<' :: '/' :: (tag.data ++ ['>']))

/-- The children string of `jsxToTXML`: each child serialized and
concatenated. -/
def serKids : List TXMLNode → List Char
  | [] => []
  | c :: cs => serNode c ++ serKids cs

end

/-- `jsxToTXML` of jsx-runtime.ts. -/
def jsxToTXML (t : TXMLNode) : String := String.mk (serNode t)

/-- `jsx` of jsx-runtime.ts, for string-valued props with the children
already collected into a list (the source's dynamic `props.children` /
third-argument juggling and `String(value)` coercion are identity on this
restricted input): the `children` and `key` props are skipped, everything
else becomes an attribute. -/
def jsx (type : String) (props : List (String × String))
    (children : List TXMLNode) : TXMLNode :=
  .elem type
    (props.filter (fun p => !(p.1 = "children") && !(p.1 = "key"))) children

/-- `jsxs` of jsx-runtime.ts delegates to `jsx`. -/
def jsxs (type : String) (props : List (String × String))
    (children : List TXMLNode) : TXMLNode :=
  jsx type props children

/-- `TSSRule` of types.ts. -/
structure TSSRule where
  selector : String
  properties : List (String × String)
  specificity : Nat

/-- `TSSStylesheet` of types.ts (`variables` is a JS `Map`, modelled in
insertion order; the field models the source's `variables`, a name Lean
reserves). -/
structure TSSStylesheet where
  vars : List (String × String)
  rules : List TSSRule

/-- `TSSParseError` (the spec's `StylesheetSyntaxError`): the thrown
message; line/column diagnostics are omitted as for the markup parser. -/
structure TSSParseErr where
  msg : String

/-- The per-part weight of `calculateSpecificity` (tss-parser.ts): `#…`
counts 100, `.…` counts 10, a part starting with an ASCII letter counts 1,
anything else counts 0. -/
def partWeight (part : List Char) : Nat :=
  match part with
  | [] => 0
  | c :: _ =>
    if c = '#' then 100 else if c = '.' then 10 else if c.isAlpha then 1 else 0

mutual

/-- JavaScript `selector.split(/\s+/)` (ASCII fragment): accumulating
characters of the current part. -/
def splitWsGo (cur : List Char) : List Char → List (List Char)
  | [] => [cur.reverse]
  | c :: cs =>
    if isWsChar c then cur.reverse :: splitWsSkip cs else splitWsGo (c :: cur) cs

/-- JavaScript `split(/\s+/)`: inside a (maximal) whitespace separator. -/
def splitWsSkip : List Char → List (List Char)
  | [] => [[]]
  | c :: cs => if isWsChar c then splitWsSkip cs else splitWsGo [c] cs

end

def splitWsCL (l : List Char) : List (List Char) := splitWsGo [] l

/-- `calculateSpecificity` of tss-parser.ts: split the selector on
whitespace and sum the per-part weights. -/
def calculateSpecificity (selector : String) : Nat :=
  (splitWsCL selector.data).foldl (fun acc part => acc + partWeight part) 0

/-- `parseValue` of tss-parser.ts: a quoted value runs to the matching
quote (whose closing quote is consumed when present; at end of input the
slice arithmetic drops the final character), an unquoted value runs until
`;`, `}` or whitespace and is trimmed.  This function throws nothing. -/
def parseValueTSS (l : List Char) : String × List Char :=
  if l.head? = some '"' then
    let r := spanP (fun c => !(c = '"')) l.tail
    match r.2 with
    | _ :: r2 => (String.mk r.1, r2)
    | [] => (String.mk r.1.dropLast, [])
  else if l.head? = some '\'' then
    let r := spanP (fun c => !(c = '\'')) l.tail
    match r.2 with
    | _ :: r2 => (String.mk r.1, r2)
    | [] => (String.mk r.1.dropLast, [])
  else
    let r := spanP (fun c => !(c = ';' || c = '}' || isWsChar c)) l
    (String.mk (trimCL r.1), r.2)

/-- `parseProperties` of tss-parser.ts: `name : value ;` declarations
until `}` (or end of input).  The `;` is expected immediately after the
value with no intervening whitespace skip; a missing `;` is a hard error.
Unknown property names only warn.  Each iteration consumes at least the
`:`, so `input length + 1` fuel always suffices. -/
def parsePropsF : Nat → List (String × String) → List Char →
    Except TSSParseErr (List (String × String) × List Char)
  | 0, _, _ => .error { msg := "property loop out of fuel" }
  | fuel + 1, acc, l =>
    match l with
    | [] => .ok (acc, [])
    | c :: _ =>
      if c = '}' then .ok (acc, l)
      else
        let l1 := dropWs l
        if l1.head? = some '}' then .ok (acc, l1)
        else
          let n := spanP isNameChar l1
          match consumeP [':'] n.2 with
          | none => .error { msg := "Expected : after property name" }
          | some l2 =>
            let v := parseValueTSS (dropWs l2)
            match consumeP [';'] v.2 with
            | none => .error { msg := "Expected ; after property value" }
            | some l3 => parsePropsF fuel (setEntry acc (String.mk n.1) v.1) l3

/-- `parseRule` of tss-parser.ts: capture the selector verbatim up to the
next `{` (trimmed), return `null` for an empty selector, otherwise parse
the brace-delimited declarations and compute the specificity. -/
def parseRuleTSS (l : List Char) :
    Except TSSParseErr (Option TSSRule × List Char) :=
  let s := spanP (fun c => !(c = '{')) l
  let selector := String.mk (trimCL s.1)
  if selector = "" then .ok (none, s.2)
  else
    match consumeP ['{'] s.2 with
    | none => .error { msg := "Expected \x7b after selector" }
    | some l1 =>
      match parsePropsF (l1.length + 1) [] l1 with
      | .error e => .error e
      | .ok (props, l2) =>
        match consumeP ['}'] l2 with
        | none => .error { msg := "Expected \x7d after properties" }
        | some l3 =>
          .ok (some ⟨selector, props, calculateSpecificity selector⟩, l3)

/-- `parseVariable` of tss-parser.ts: `--name: value;`. -/
def parseVariableTSS (l : List Char) :
    Except TSSParseErr ((String × String) × List Char) :=
  match consumeP ['-', '-'] l with
  | none => .error { msg := "Expected -- for CSS variable" }
  | some l1 =>
    let n := spanP isNameChar l1
    match consumeP [':'] n.2 with
    | none => .error { msg := "Expected : after variable name" }
    | some l2 =>
      let v := parseValueTSS (dropWs l2)
      match consumeP [';'] v.2 with
      | none => .error { msg := "Expected ; after variable value" }
      | some l3 => .ok ((String.mk n.1, v.1), l3)

/-- The declaration loop of `parseRootVariables` (tss-parser.ts): `--`
declarations feed the variable map; other declarations are scanned with
unchecked `consume` calls and discarded.  Runs until `}` (consumed) or end
of input (error). -/
def parseRootLoopF : Nat → List (String × String) → List Char →
    Except TSSParseErr (List (String × String) × List Char)
  | 0, _, _ => .error { msg := "root loop out of fuel" }
  | fuel + 1, vars, l =>
    match l with
    | [] => .error { msg := "Expected \x7d after :root block" }
    | c :: rest =>
      if c = '}' then .ok (vars, rest)
      else
        let l1 := dropWs l
        if l1.head? = some '}' then .ok (vars, l1.tail)
        else
          if (consumeP ['-', '-'] l1).isSome then
            match parseVariableTSS l1 with
            | .error e => .error e
            | .ok (kv, l2) => parseRootLoopF fuel (setEntry vars kv.1 kv.2) (dropWs l2)
          else
            let n := spanP isNameChar l1
            let l2 := (consumeP [':'] n.2).getD n.2
            let v := parseValueTSS l2
            let l3 := (consumeP [';'] v.2).getD v.2
            parseRootLoopF fuel vars (dropWs l3)

/-- `parseRootVariables` of tss-parser.ts: skip `:root`, expect `{`,
run the declaration loop. -/
def parseRootVars (vars : List (String × String)) (l : List Char) :
    Except TSSParseErr (List (String × String) × List Char) :=
  let l1 := dropWs (l.drop 5)
  match consumeP ['{'] l1 with
  | none => .error { msg := "Expected \x7b after :root" }
  | some l2 => parseRootLoopF (l2.length + 1) vars l2

/-- The brace-depth block skipper inside `parseAtRule` (tss-parser.ts),
entered just past the opening `{` with depth 1. -/
def skipBlock : Nat → List Char → List Char
  | _, [] => []
  | depth, c :: rest =>
    let d := if c = '{' then depth + 1 else if c = '}' then depth - 1 else depth
    if d = 0 then rest else skipBlock d rest

/-- `parseAtRule` of tss-parser.ts: scan to `;` or `{`; a braced body is
skipped with depth tracking, otherwise everything through the next `;` is
dropped. -/
def parseAtRule (l : List Char) : List Char :=
  let s := spanP (fun c => !(c = ';' || c = '{')) l
  if s.2.head? = some '{' then skipBlock 1 s.2.tail
  else if s.2.head? = some ';' then s.2.tail
  else s.2

/-- The top-level loop of `TSSParser.parse` (tss-parser.ts): dispatch on
`:root`, `@`, or an ordinary rule; whitespace is skipped between items.
Fuel bounds the loop (the source loops forever on a leading `{`, which
surfaces here as a fuel error). -/
def parseTSSF : Nat → List (String × String) → List TSSRule → List Char →
    Except TSSParseErr TSSStylesheet
  | 0, _, _, _ => .error { msg := "stylesheet loop out of fuel" }
  | fuel + 1, vars, rules, l =>
    match l with
    | [] => .ok ⟨vars, rules⟩
    | _ :: _ =>
      if (consumeP [':', 'r', 'o', 'o', 't'] l).isSome then
        match parseRootVars vars l with
        | .error e => .error e
        | .ok (vars2, rest) => parseTSSF fuel vars2 rules (dropWs rest)
      else if l.head? = some '@' then
        parseTSSF fuel vars rules (dropWs (parseAtRule l))
      else
        match parseRuleTSS l with
        | .error e => .error e
        | .ok (none, rest) => parseTSSF fuel vars rules (dropWs rest)
        | .ok (some r, rest) => parseTSSF fuel vars (rules ++ [r]) (dropWs rest)

/-- `parseTSS` of tss-parser.ts. -/
def parseTSS (s : String) : Except TSSParseErr TSSStylesheet :=
  parseTSSF (s.data.length + 1) [] [] (dropWs s.data)

/-- State value retained by the state store (`WidgetState.value` of
types.ts, a dynamic `any` holding a string, float or boolean). -/
inductive StVal where
  | str (s : String)
  | num (q : ℚ)
  | bool (b : Bool)

/-- `WidgetState` of types.ts. -/
structure WidgetState where
  id : String
  value : StVal
  lastFrame : Nat

/-- One Widget Binding Layer (ImGui) call emitted during a tree walk;
arguments are recorded as the raw values handed to the binding. -/
inductive GuiCall where
  | winBegin (title : String)
  | winEnd
  | textOut (s : String)
  | buttonOut (label : String)
  | inputTextOut (label hint value : String)
  | sliderOut (label : String) (value : ℚ) (minA maxA : String)
  | checkboxOut (label : String) (checked : Bool)
  | sameLineOut (offset spacing : String)
  | spacingOut
  | separatorOut
  | callbackInvoked (name : String)

/-- The external ImGui binding's interaction results, supplied as pure
functions so a frame is deterministic given the environment. -/
structure GuiEnv where
  winOpened : String → Bool
  clicked : String → Bool
  inputChanged : String → String → String → Option String
  sliderChanged : String → Bool
  checkboxChanged : String → Bool

/-- `RenderContext` of types.ts: retained widget state, registered event
handler names (callback bodies are external and surface as trace events),
the stylesheet, the frame counter, the mutable ancestor-path stack, plus
the emitted Widget Binding Layer calls. -/
structure RenderContext where
  state : List (String × WidgetState)
  eventHandlers : List String
  stylesheet : TSSStylesheet
  frameNumber : Nat
  currentPath : List String
  trace : List GuiCall

def pushCall (g : GuiCall) (ctx : RenderContext) : RenderContext :=
  { ctx with trace := ctx.trace ++ [g] }

/-- Attribute access `element.attributes.x || dflt` (JS `||` takes the
default for a missing or empty-string attribute). -/
def attrOr (attrs : List (String × String)) (k dflt : String) : String :=
  match attrs.find? (fun p => p.1 = k) with
  | some p => if p.2 = "" then dflt else p.2
  | none => dflt

/-- `getTextContent` of widget-renderers.ts: string children joined and
trimmed. -/
def getTextContent (el : TXMLNode) : String :=
  String.mk (trimCL (el.children.foldr
    (fun c acc => match c with | .text s => s.data ++ acc | _ => acc) []))

/-- `generateId` of widget-renderers.ts: the ancestor tag path plus the
element's own tag, joined with `/`.  No sibling ordinal and no `id`/`key`
attribute enters the identity. -/
def generateId (element : TXMLNode) (context : RenderContext) : String :=
  String.intercalate "/" (context.currentPath ++ [element.tag])

/-- `handleEvent` of widget-renderers.ts: invoke the registered callback
(recorded as a trace event) or warn. -/
def handleEvent (eventName : String) (context : RenderContext) : RenderContext :=
  if context.eventHandlers.contains eventName then
    pushCall (.callbackInvoked eventName) context
  else context

/-- `getComputedStyle` of widget-renderers.ts returns the empty style
unconditionally (the style engine is not yet wired in). -/
def getComputedStyle (_el : TXMLNode) (_ctx : RenderContext) :
    List (String × String) := []

/-- `renderInputText` of widget-renderers.ts: path-derived identity, state
lookup with a seeded default, and a state write when the binding reports a
change. -/
def renderInputText (env : GuiEnv) (el : TXMLNode) (ctx : RenderContext) :
    RenderContext :=
  let id := generateId el ctx
  let st := (ctx.state.find? (fun p => p.1 = id)).map Prod.snd
    |>.getD ⟨id, .str "", ctx.frameNumber⟩
  let label := attrOr el.attributes "label" ""
  let hint := attrOr el.attributes "hint" ""
  let value := match st.value with | .str s => s | _ => ""
  let ctx := pushCall (.inputTextOut label hint value) ctx
  match env.inputChanged label hint value with
  | some nv =>
    { ctx with state := setEntry ctx.state id ⟨id, .str nv, ctx.frameNumber⟩ }
  | none => ctx

/-- `renderSliderFloat` of widget-renderers.ts.  The changed value is read
back from the same local variable the source passed by value, so a
reported change rewrites the unchanged value (faithful to the source). -/
def renderSliderFloat (env : GuiEnv) (el : TXMLNode) (ctx : RenderContext) :
    RenderContext :=
  let id := generateId el ctx
  let st := (ctx.state.find? (fun p => p.1 = id)).map Prod.snd
    |>.getD ⟨id, .num (1/2), ctx.frameNumber⟩
  let label := attrOr el.attributes "label" ""
  let minA := attrOr el.attributes "min" "0"
  let maxA := attrOr el.attributes "max" "1"
  let value := match st.value with | .num q => q | _ => 1/2
  let ctx := pushCall (.sliderOut label value minA maxA) ctx
  if env.sliderChanged label then
    { ctx with state := setEntry ctx.state id ⟨id, .num value, ctx.frameNumber⟩ }
  else ctx

/-- `renderCheckbox` of widget-renderers.ts (same pass-by-value quirk as
the slider). -/
def renderCheckbox (env : GuiEnv) (el : TXMLNode) (ctx : RenderContext) :
    RenderContext :=
  let id := generateId el ctx
  let st := (ctx.state.find? (fun p => p.1 = id)).map Prod.snd
    |>.getD ⟨id, .bool false, ctx.frameNumber⟩
  let label := attrOr el.attributes "label" ""
  let checked := match st.value with | .bool b => b | _ => false
  let ctx := pushCall (.checkboxOut label checked) ctx
  if env.checkboxChanged label then
    { ctx with state := setEntry ctx.state id ⟨id, .bool checked, ctx.frameNumber⟩ }
  else ctx

/-- `renderButton` of widget-renderers.ts. -/
def renderButton (env : GuiEnv) (el : TXMLNode) (ctx : RenderContext) :
    RenderContext :=
  let t := getTextContent el
  let ctx := pushCall (.buttonOut t) ctx
  let onClick := attrOr el.attributes "onClick" ""
  if env.clicked t && !(onClick = "") then handleEvent onClick ctx else ctx

mutual

/-- `WidgetRenderers.render` of widget-renderers.ts: dispatch on the tag
through the renderer map; an unregistered tag only warns. -/
def renderW (env : GuiEnv) (element : TXMLNode) (context : RenderContext) :
    RenderContext :=
  match element with
  | .text _ => context
  | .elem tag attrs children =>
    match tag with
    | "App" => renderChildrenW env tag children context
    | "Head" => context
    | "Body" => renderChildrenW env tag children context
    | "Window" =>
      let title := attrOr attrs "title" "Window"
      let opened := env.winOpened title
      let c1 := pushCall (.winBegin title) context
      let c2 := if opened then renderChildrenW env tag children c1 else c1
      pushCall .winEnd c2
    | "Text" => pushCall (.textOut (getTextContent (.elem tag attrs children))) context
    | "Button" => renderButton env (.elem tag attrs children) context
    | "InputText" => renderInputText env (.elem tag attrs children) context
    | "SliderFloat" => renderSliderFloat env (.elem tag attrs children) context
    | "Checkbox" => renderCheckbox env (.elem tag attrs children) context
    | "SameLine" =>
      pushCall (.sameLineOut (attrOr attrs "offset" "0")
        (attrOr attrs "spacing" "-1")) context
    | "Spacing" => pushCall .spacingOut context
    | "Separator" => pushCall .separatorOut context
    | _ => context

/-- `renderChildren` of widget-renderers.ts: remember the current path,
push this element's tag, walk the children, restore the remembered path. -/
def renderChildrenW (env : GuiEnv) (tag : String) (children : List TXMLNode)
    (context : RenderContext) : RenderContext :=
  let oldPath := context.currentPath
  let c1 := renderKidsW env children
    { context with currentPath := context.currentPath ++ [tag] }
  { c1 with currentPath := oldPath }

/-- The child loop of `renderChildren`: non-blank text children render as
trimmed text, element children recurse through the dispatcher. -/
def renderKidsW (env : GuiEnv) (children : List TXMLNode)
    (context : RenderContext) : RenderContext :=
  match children with
  | [] => context
  | c :: cs =>
    let c1 := match c with
      | .text s =>
        if (trimCL s.data).isEmpty then context
        else pushCall (.textOut (String.mk (trimCL s.data))) context
      | .elem t a k => renderW env (.elem t a k) context
    renderKidsW env cs c1

end

/-- Modelled from the spec: the missing state-manager module's
`beginFrame` (§4.4: "increments the frame counter; does not clear any
data") and `createContext` (§3 Render Context: fresh per frame, ancestor
path starting empty at the root, referencing the stylesheet and the
retained state).  `endFrame` advances bookkeeping only and changes no
observable state. -/
def createContext (st : List (String × WidgetState)) (handlers : List String)
    (sheet : TSSStylesheet) (frame : Nat) : RenderContext :=
  { state := st, eventHandlers := handlers, stylesheet := sheet,
    frameNumber := frame, currentPath := [], trace := [] }

/-- Outcome of one `TXMLTSSRenderer.render` call: either a completed
frame (the final context, whose trace lists the Widget Binding Layer
calls) or a caught-and-logged error.  There is no constructor for a
propagated exception: the function below is total. -/
inductive RenderOutcome where
  | rendered (ctx : RenderContext)
  | errorLogged (msg : String)

/-- `TXMLTSSRenderer.render` of renderer.ts: parse the markup, parse the
stylesheet, begin the frame, build the context, walk the tree, end the
frame; any error raised inside is caught and logged (`console.error`)
instead of propagating.  In this total embedding the only error sources
are the two parse phases (`computeStyle` never raises per spec §4.3 and
its result is discarded by `renderElement`), so the `try`/`catch` becomes
the two `match`es below; on a parse error no Widget Binding Layer call is
made. -/
def rendererRender (env : GuiEnv) (st : List (String × WidgetState))
    (handlers : List String) (frame : Nat) (txml tss : String) :
    RenderOutcome :=
  match parseTXML txml with
  | .error e => .errorLogged e.msg
  | .ok tree =>
    match parseTSS tss with
    | .error e => .errorLogged e.msg
    | .ok sheet =>
      .rendered (renderW env tree (createContext st handlers sheet (frame + 1)))

/-- Attribute-value characters that survive the serialize/parse round
trip: none of the five characters `jsxToTXML` escapes (the markup parser
performs no entity decoding, so an escaped character does not return to
itself). -/
def isAttrValChar (c : Char) : Bool :=
  !(c = '&' || c = '"' || c = '\'' || c = '<' || c = '>')

def attrOkB (p : String × String) : Bool :=
  !p.1.isEmpty && p.1.data.all isNameChar && p.2.data.all isAttrValChar

def tagOkB (s : String) : Bool := !s.isEmpty && s.data.all isNameChar

/-- Text children that round-trip: non-empty, not starting with
whitespace (the parser's `skipWhitespace` would strip it), and free of
`<` (the serializer does not escape text). -/
def textOkB (s : String) : Bool :=
  match s.data with
  | [] => false
  | c :: _ => !isWsChar c && s.data.all (fun d => !(d = '<'))

/-- JS records cannot hold duplicate keys; duplicate attribute names in
the model would be merged by the parser's record assignment. -/
def keysNodupB : List (String × String) → Bool
  | [] => true
  | p :: rest => !(rest.any (fun q => q.1 = p.1)) && keysNodupB rest

/-- Two adjacent text children would be concatenated by the serializer
and come back as a single text node. -/
def noAdjTextB : List TXMLNode → Bool
  | .text _ :: .text _ :: _ => false
  | _ :: rest => noAdjTextB rest
  | [] => true

mutual

/-- Trees for which the serialize/parse round trip is the identity:
well-formed tag and attribute names, attribute values free of escaped
characters, text children as in `textOkB`, and no two adjacent text
children. -/
def goodNode : TXMLNode → Bool
  | .text s => textOkB s
  | .elem tag attrs cs =>
    tagOkB tag && attrs.all attrOkB && keysNodupB attrs &&
      noAdjTextB cs && goodKids cs

def goodKids : List TXMLNode → Bool
  | [] => true
  | c :: cs => goodNode c && goodKids cs

end

/-- A simple selector of the spec's selector grammar (§3): a tag name,
`.class` or `#id`, optionally carrying a verbatim pseudo-class suffix. -/
inductive SimpleSel where
  | tagSel (name : String) (pseudo : Option String)
  | classSel (name : String) (pseudo : Option String)
  | idSel (name : String) (pseudo : Option String)

def renderPseudo : Option String → List Char
  | none => []
  | some p => ':' :: p.data

def renderSimpleSel : SimpleSel → List Char
  | .tagSel n p => n.data ++ renderPseudo p
  | .classSel n p => '.' :: (n.data ++ renderPseudo p)
  | .idSel n p => '#' :: (n.data ++ renderPseudo p)

def renderSelCL : List SimpleSel → List Char
  | [] => []
  | [s] => renderSimpleSel s
  | s :: rest => renderSimpleSel s ++ ' ' :: renderSelCL rest

/-- A selector string of the spec's grammar: simple selectors separated
by single spaces. -/
def renderSelector (sels : List SimpleSel) : String :=
  String.mk (renderSelCL sels)

/-- Modelled from the spec (§3): "Specificity = 100×(#id selectors) +
10×(.class selectors) + 1×(tag-name selectors) summed over every simple
selector in the string". -/
def specWeight : SimpleSel → Nat
  | .tagSel _ _ => 1
  | .classSel _ _ => 10
  | .idSel _ _ => 100

/-- Modelled from the spec (§3): the claimed specificity of a selector. -/
def selectorSpecSpec (sels : List SimpleSel) : Nat :=
  (sels.map specWeight).sum

def wfPseudo : Option String → Bool
  | none => true
  | some p => p.data.all (fun c => !isWsChar c)

/-- Well-formedness of a simple selector: a non-empty name over the
markup tag-name alphabet for tag selectors, a non-empty whitespace-free
name for class/id selectors, and a whitespace-free pseudo suffix. -/
def wfSimpleSel : SimpleSel → Bool
  | .tagSel n p => !n.isEmpty && n.data.all isNameChar && wfPseudo p
  | .classSel n p => !n.isEmpty && n.data.all (fun c => !isWsChar c) && wfPseudo p
  | .idSel n p => !n.isEmpty && n.data.all (fun c => !isWsChar c) && wfPseudo p

/-- The restriction the code imposes beyond the spec formula: a tag-name
simple selector is only counted when its first character is an ASCII
letter (`/^[a-zA-Z]/` in `calculateSpecificity`). -/
def tagStartsWithLetter : SimpleSel → Bool
  | .tagSel n _ =>
    match n.data with
    | c :: _ => c.isAlpha
    | [] => false
  | _ => true

/-! ### Basic scanning lemmas -/

theorem ne_of_sat_of_unsat {p : Char → Bool} {c d : Char}
    (h1 : p c = true) (h2 : p d = false) : c ≠ d := by
  intro he
  rw [he, h2] at h1
  exact Bool.false_ne_true h1

theorem isNameChar_not_ws {c : Char} (h : isNameChar c = true) :
    isWsChar c = false := by
  by_contra hw
  simp only [Bool.not_eq_false] at hw
  have hc : c = ' ' ∨ c = '\t' ∨ c = '\n' ∨ c = '\r' ∨ c = '\x0b' ∨
      c = '\x0c' := by
    simpa [isWsChar, or_assoc] using hw
  rcases hc with h1 | h1 | h1 | h1 | h1 | h1 <;> rw [h1] at h <;>
    exact absurd h (by decide)

/-- `headSat p b`: the first character of `b`, if any, fails `p`. -/
def headUnsat (p : Char → Bool) : List Char → Prop
  | [] => True
  | c :: _ => p c = false

theorem spanP_append {p : Char → Bool} (a : List Char) {b : List Char}
    (ha : ∀ c ∈ a, p c = true) (hb : headUnsat p b) :
    spanP p (a ++ b) = (a, b) := by
  induction a with
  | nil =>
    cases b with
    | nil => rfl
    | cons c cs => simp only [headUnsat] at hb; simp [spanP, hb]
  | cons c cs ih =>
    have hc : p c = true := ha c (by simp)
    simp only [List.cons_append, spanP, hc, if_true, List.append_eq]
    rw [ih (fun d hd => ha d (by simp [hd]))]

theorem consumeP_self (a r : List Char) : consumeP a (a ++ r) = some r := by
  induction a with
  | nil => rfl
  | cons c cs ih => simp [consumeP, ih]

theorem consumeP_head_ne {c p : Char} (ps cs : List Char) (h : c ≠ p) :
    consumeP (p :: ps) (c :: cs) = none := by
  simp [consumeP, h]

theorem dropWs_cons_of_not_ws {c : Char} (l : List Char)
    (h : isWsChar c = false) : dropWs (c :: l) = c :: l := by
  simp [dropWs, h]

theorem dropWs_append {a : List Char} (b : List Char)
    (h : ∀ c ∈ a, isWsChar c = true) : dropWs (a ++ b) = dropWs b := by
  induction a with
  | nil => rfl
  | cons c cs ih =>
    have hc := h c (by simp)
    simp only [List.cons_append, dropWs, hc, if_true]
    exact ih (fun d hd => h d (by simp [hd]))

theorem dropWs_head_not_ws {l r : List Char} {c : Char}
    (h : dropWs l = c :: r) : isWsChar c = false := by
  induction l with
  | nil => simp [dropWs] at h
  | cons d ds ih =>
    by_cases hw : isWsChar d
    · simp only [dropWs, hw, if_true] at h
      exact ih h
    · simp only [dropWs, hw, Bool.false_eq_true, if_false] at h
      cases h
      simpa using hw

theorem dropWs_ne_nil_of_mem {l : List Char} {c : Char}
    (hc : c ∈ l) (hw : isWsChar c = false) : dropWs l ≠ [] := by
  induction l with
  | nil => cases hc
  | cons d ds ih =>
    by_cases hd : isWsChar d
    · simp only [dropWs, hd, if_true]
      rcases List.mem_cons.mp hc with he | hm
      · subst he; rw [hd] at hw; cases hw
      · exact ih hm
    · simp [dropWs, hd]

theorem trimCL_cons_ne_nil {c : Char} (l : List Char)
    (h : isWsChar c = false) : trimCL (c :: l) ≠ [] := by
  unfold trimCL
  rw [dropWs_cons_of_not_ws l h]
  intro hnil
  rw [List.reverse_eq_nil_iff] at hnil
  exact dropWs_ne_nil_of_mem (by simp) h hnil

theorem trimCL_eq_self {l : List Char}
    (h1 : headUnsat isWsChar l) (h2 : headUnsat isWsChar l.reverse) :
    trimCL l = l := by
  unfold trimCL
  have e1 : dropWs l = l := by
    cases l with
    | nil => rfl
    | cons c cs => exact dropWs_cons_of_not_ws cs h1
  rw [e1]
  have e2 : dropWs l.reverse = l.reverse := by
    cases hr : l.reverse with
    | nil => rfl
    | cons c cs =>
      rw [hr] at h2
      exact dropWs_cons_of_not_ws cs h2
  rw [e2, List.reverse_reverse]

theorem trimCL_of_all_not_ws {l : List Char}
    (h : ∀ c ∈ l, isWsChar c = false) : trimCL l = l := by
  apply trimCL_eq_self
  · cases l with
    | nil => trivial
    | cons c cs => exact h c (by simp)
  · cases hr : l.reverse with
    | nil => trivial
    | cons c cs =>
      exact h c (by rw [← List.mem_reverse, hr]; simp)

theorem setEntry_append {α : Type} {m : List (String × α)} {k : String}
    (v : α) (h : ∀ q ∈ m, ¬(q.1 = k)) : setEntry m k v = m ++ [(k, v)] := by
  unfold setEntry
  have : m.any (fun p => p.1 = k) = false := by
    simp only [List.any_eq_false, decide_eq_true_eq]
    exact h
  rw [this]
  simp

/-! ### Path preservation of the widget renderers -/

theorem pushCall_path (g : GuiCall) (c : RenderContext) :
    (pushCall g c).currentPath = c.currentPath := rfl

theorem handleEvent_path (n : String) (c : RenderContext) :
    (handleEvent n c).currentPath = c.currentPath := by
  unfold handleEvent
  split <;> rfl

theorem renderChildrenW_path (env : GuiEnv) (t : String)
    (cs : List TXMLNode) (c : RenderContext) :
    (renderChildrenW env t cs c).currentPath = c.currentPath := by
  unfold renderChildrenW
  rfl

theorem renderButton_path (env : GuiEnv) (el : TXMLNode) (c : RenderContext) :
    (renderButton env el c).currentPath = c.currentPath := by
  unfold renderButton
  dsimp only
  split
  · exact handleEvent_path ..
  · rfl

theorem renderInputText_path (env : GuiEnv) (el : TXMLNode)
    (c : RenderContext) :
    (renderInputText env el c).currentPath = c.currentPath := by
  unfold renderInputText
  dsimp only
  split <;> rfl

theorem renderSliderFloat_path (env : GuiEnv) (el : TXMLNode)
    (c : RenderContext) :
    (renderSliderFloat env el c).currentPath = c.currentPath := by
  unfold renderSliderFloat
  dsimp only
  split <;> rfl

theorem renderCheckbox_path (env : GuiEnv) (el : TXMLNode)
    (c : RenderContext) :
    (renderCheckbox env el c).currentPath = c.currentPath := by
  unfold renderCheckbox
  dsimp only
  split <;> rfl

/-- Claim C9: `WidgetRenderers.render` leaves `context.currentPath` as it
found it: a container pushes its tag onto the ancestor-path stack only
while rendering its children and `renderChildren` restores the previous
path afterwards, and no widget renderer touches the path at all. -/
theorem c9_render_restores_path (env : GuiEnv) (element : TXMLNode)
    (context : RenderContext) :
    (renderW env element context).currentPath = context.currentPath := by
  cases element with
  | text s => unfold renderW; rfl
  | elem tag attrs children =>
    unfold renderW
    split
    · exact renderChildrenW_path ..
    · rfl
    · exact renderChildrenW_path ..
    · dsimp only
      rw [pushCall_path]
      split
      · rw [renderChildrenW_path, pushCall_path]
      · rw [pushCall_path]
    · rfl
    · exact renderButton_path ..
    · exact renderInputText_path ..
    · exact renderSliderFloat_path ..
    · exact renderCheckbox_path ..
    · rfl
    · rfl
    · rfl
    · rfl

/-- A render context whose ancestor path places the current element under
`App/Body/Window`, as during a walk of `<App><Body><Window>…`. -/
def sampleContext : RenderContext :=
  { state := [], eventHandlers := [], stylesheet := ⟨[], []⟩,
    frameNumber := 7, currentPath := ["App", "Body", "Window"], trace := [] }

/-- Claim C1 (code bug): `generateId` derives the identity from the tag
path alone, so two distinct sibling `Button` elements under the same
`Window` receive the *same* identity `App/Body/Window/Button`, violating
the required sibling uniqueness (the identity is frame-independent, so
the cross-frame stability half of the claim does hold). -/
theorem c1_generateId_collision :
    generateId (.elem "Button" [("label", "A")] []) sampleContext =
      "App/Body/Window/Button" ∧
    generateId (.elem "Button" [("label", "B")] []) sampleContext =
      "App/Body/Window/Button" ∧
    (TXMLNode.elem "Button" [("label", "A")] [] ≠
      TXMLNode.elem "Button" [("label", "B")] []) := by
  refine ⟨rfl, rfl, ?_⟩
  simp

/-- Claim C8: one `TXMLTSSRenderer.render` call always produces an
outcome — a completed frame or a caught-and-logged error, never a
propagated exception — and when either parse phase fails the frame's
Widget Binding Layer calls are skipped and the parse error is what gets
logged. -/
theorem c8_render_catches_errors (env : GuiEnv)
    (st : List (String × WidgetState)) (handlers : List String) (frame : Nat)
    (txml tss : String) :
    ((∃ c, rendererRender env st handlers frame txml tss = .rendered c) ∨
     (∃ m, rendererRender env st handlers frame txml tss = .errorLogged m)) ∧
    (∀ e, parseTXML txml = .error e →
      rendererRender env st handlers frame txml tss = .errorLogged e.msg) ∧
    (∀ tree e, parseTXML txml = .ok tree → parseTSS tss = .error e →
      rendererRender env st handlers frame txml tss = .errorLogged e.msg) := by
  unfold rendererRender
  refine ⟨?_, ?_, ?_⟩
  · cases hx : parseTXML txml with
    | error e => right; exact ⟨e.msg, rfl⟩
    | ok tree =>
      cases hs : parseTSS tss with
      | error e => right; exact ⟨e.msg, rfl⟩
      | ok sheet => left; exact ⟨_, rfl⟩
  · intro e he
    rw [he]
  · intro tree e ht hs
    rw [ht, hs]

/-- An arbitrary concrete interaction environment (window closed, nothing
clicked or changed). -/
def quietEnv : GuiEnv :=
  { winOpened := fun _ => false, clicked := fun _ => false,
    inputChanged := fun _ _ _ => none, sliderChanged := fun _ => false,
    checkboxChanged := fun _ => false }

/-- Witness for C8: on the malformed markup `"x"` the renderer logs the
markup parse error instead of throwing. -/
theorem c8_render_catches_errors_witness :
    rendererRender quietEnv [] [] 0 "x" "" =
      .errorLogged "Expected XML document to start with <" :=
  (c8_render_catches_errors quietEnv [] [] 0 "x" "").2.1
    { msg := "Expected XML document to start with <" } (by rfl)

/-- Claim C2 counterexample: the tree `jsx "App" [] [" hi"]` (a text
child with leading whitespace) serializes to `<App> hi</App>`, whose
re-parse yields the text child `"hi"` — not a structurally equal tree,
because `parseChildren` skips whitespace before reading text. -/
theorem c2_roundtrip_counterexample :
    jsxToTXML (jsx "App" [] [.text " hi"]) = "<App> hi</App>" ∧
    parseTXML (jsxToTXML (jsx "App" [] [.text " hi"])) =
      .ok (.elem "App" [] [.text "hi"]) ∧
    (TXMLNode.elem "App" [] [.text "hi"] ≠ jsx "App" [] [.text " hi"]) := by
  refine ⟨rfl, rfl, ?_⟩
  intro h
  rw [show jsx "App" [] [.text " hi"] = .elem "App" [] [.text " hi"] from rfl]
    at h
  simp at h

/-- Claim C7 counterexample: parsing `<App>hi </App>` succeeds and keeps
the text child as the *untrimmed* `"hi "` — `parseChildren` pushes the
raw text (only leading whitespace was consumed by `skipWhitespace`), so a
kept text node can carry trailing whitespace, contradicting the claim
that it appears as the trimmed string. -/
theorem c7_untrimmed_counterexample :
    parseTXML "<App>hi </App>" = .ok (.elem "App" [] [.text "hi "]) ∧
    trimCL ("hi ").data ≠ ("hi ").data := by
  exact ⟨rfl, by decide⟩

/-- Claim C3 counterexample: `_x` is a selector string consisting of one
tag-name simple selector (the markup parser accepts `_x` as a tag), so
the claimed formula assigns it specificity 1, but `calculateSpecificity`
tests `/^[a-zA-Z]/` and yields 0. -/
theorem c3_specificity_counterexample :
    calculateSpecificity (renderSelector [SimpleSel.tagSel "_x" none]) ≠
      selectorSpecSpec [SimpleSel.tagSel "_x" none] ∧
    renderSelector [SimpleSel.tagSel "_x" none] = "_x" ∧
    calculateSpecificity "_x" = 0 ∧
    selectorSpecSpec [SimpleSel.tagSel "_x" none] = 1 ∧
    parseTXML "<App><_x /></App>" =
      .ok (.elem "App" [] [.elem "_x" [] []]) := by
  exact ⟨by decide, rfl, rfl, rfl, rfl⟩

theorem splitWsGo_wsfree {l : List Char} (h : ∀ c ∈ l, isWsChar c = false) :
    ∀ cur, splitWsGo cur l = [cur.reverse ++ l] := by
  induction l with
  | nil => intro cur; simp [splitWsGo]
  | cons c cs ih =>
    intro cur
    have hc := h c (by simp)
    rw [splitWsGo, if_neg (by simp [hc])]
    rw [ih (fun d hd => h d (by simp [hd]))]
    simp

theorem splitWsGo_part {p : List Char} (rest : List Char)
    (h : ∀ c ∈ p, isWsChar c = false) :
    ∀ cur, splitWsGo cur (p ++ ' ' :: rest) =
      (cur.reverse ++ p) :: splitWsSkip rest := by
  induction p with
  | nil =>
    intro cur
    rw [List.nil_append, splitWsGo, if_pos (by decide)]
    simp
  | cons c cs ih =>
    intro cur
    have hc := h c (by simp)
    rw [List.cons_append, splitWsGo, if_neg (by simp [hc])]
    rw [ih (fun d hd => h d (by simp [hd]))]
    simp

theorem splitWsSkip_eq_go {l : List Char} {c : Char} {cs : List Char}
    (he : l = c :: cs) (hc : isWsChar c = false) :
    splitWsSkip l = splitWsGo [] l := by
  subst he
  rw [splitWsSkip, if_neg (by simp [hc]), splitWsGo, if_neg (by simp [hc])]

theorem renderSimpleSel_wsfree {s : SimpleSel} (h : wfSimpleSel s = true) :
    ∀ c ∈ renderSimpleSel s, isWsChar c = false := by
  have hp : ∀ (po : Option String), wfPseudo po = true →
      ∀ c ∈ renderPseudo po, isWsChar c = false := by
    intro po hpo c hc
    cases po with
    | none => simp [renderPseudo] at hc
    | some q =>
      simp only [renderPseudo, List.mem_cons] at hc
      rcases hc with he | hm
      · subst he; decide
      · simp only [wfPseudo, List.all_eq_true] at hpo
        have := hpo c hm
        simpa using this
  cases s with
  | tagSel n po =>
    simp only [wfSimpleSel, Bool.and_eq_true, List.all_eq_true] at h
    intro c hc
    simp only [renderSimpleSel, List.mem_append] at hc
    rcases hc with hm | hm
    · exact isNameChar_not_ws (h.1.2 c hm)
    · exact hp po h.2 c hm
  | classSel n po =>
    simp only [wfSimpleSel, Bool.and_eq_true, List.all_eq_true] at h
    intro c hc
    simp only [renderSimpleSel, List.mem_cons, List.mem_append] at hc
    rcases hc with he | hm | hm
    · subst he; decide
    · have := h.1.2 c hm; simpa using this
    · exact hp po h.2 c hm
  | idSel n po =>
    simp only [wfSimpleSel, Bool.and_eq_true, List.all_eq_true] at h
    intro c hc
    simp only [renderSimpleSel, List.mem_cons, List.mem_append] at hc
    rcases hc with he | hm | hm
    · subst he; decide
    · have := h.1.2 c hm; simpa using this
    · exact hp po h.2 c hm

theorem renderSimpleSel_ne_nil {s : SimpleSel} (h : wfSimpleSel s = true) :
    renderSimpleSel s ≠ [] := by
  cases s with
  | tagSel n po =>
    simp only [wfSimpleSel, Bool.and_eq_true] at h
    have hn : n.data ≠ [] := by
      intro hd
      have : n.isEmpty = true := by
        rw [String.isEmpty_iff]
        cases n
        simp_all
      simp [this] at h
    cases hd : n.data with
    | nil => exact absurd hd hn
    | cons c cs => simp [renderSimpleSel, hd]
  | classSel n po => simp [renderSimpleSel]
  | idSel n po => simp [renderSimpleSel]

theorem partWeight_render {s : SimpleSel} (h : wfSimpleSel s = true)
    (ha : tagStartsWithLetter s = true) :
    partWeight (renderSimpleSel s) = specWeight s := by
  cases s with
  | tagSel n po =>
    cases hd : n.data with
    | nil => simp [tagStartsWithLetter, hd] at ha
    | cons c cs =>
      have hca : c.isAlpha = true := by
        simp only [tagStartsWithLetter, hd] at ha
        exact ha
      have h1 : c ≠ '#' := ne_of_sat_of_unsat hca (by decide)
      have h2 : c ≠ '.' := ne_of_sat_of_unsat hca (by decide)
      simp only [renderSimpleSel, hd, List.cons_append, partWeight, specWeight]
      rw [if_neg h1, if_neg h2, if_pos hca]
  | classSel n po => rfl
  | idSel n po => rfl

theorem foldl_partWeight_shift (parts : List (List Char)) :
    ∀ acc : Nat, parts.foldl (fun a p => a + partWeight p) acc =
      acc + parts.foldl (fun a p => a + partWeight p) 0 := by
  induction parts with
  | nil => intro acc; simp
  | cons p ps ih =>
    intro acc
    rw [List.foldl_cons, List.foldl_cons, ih (acc + partWeight p),
      ih (0 + partWeight p)]
    omega

theorem renderSelCL_cons (r : SimpleSel) (rs : List SimpleSel) :
    renderSelCL (r :: rs) = renderSimpleSel r ++
      (match rs with | [] => [] | _ :: _ => ' ' :: renderSelCL rs) := by
  cases rs with
  | nil => simp [renderSelCL]
  | cons a as => rfl

/-- Claim C3 (amended): for every selector in the spec's grammar whose
tag-name simple selectors begin with an ASCII letter, the parse-time
specificity equals the spec formula; in particular the rules
`Window{…}`, `.my-class{…}`, `#my-id{…}` get specificities 1, 10, 100. -/
theorem c3_specificity_formula :
    (∀ sels : List SimpleSel,
      sels.all wfSimpleSel = true → sels.all tagStartsWithLetter = true →
      calculateSpecificity (renderSelector sels) = selectorSpecSpec sels) ∧
    (parseTSS "Window\x7bcolor:white;\x7d .my-class\x7bcolor:red;\x7d #my-id\x7bcolor:blue;\x7d").map
      (fun sheet => sheet.rules.map (fun r => r.specificity)) =
      .ok [1, 10, 100] := by
  constructor
  case right => rfl
  case left =>
  intro sels
  induction sels with
  | nil => intro _ _; decide
  | cons s rest ih =>
    intro hwf hletter
    simp only [List.all_cons, Bool.and_eq_true] at hwf hletter
    have hws := renderSimpleSel_wsfree hwf.1
    cases rest with
    | nil =>
      show (splitWsCL (renderSelCL [s])).foldl _ 0 = _
      unfold splitWsCL
      rw [show renderSelCL [s] = renderSimpleSel s from rfl]
      rw [splitWsGo_wsfree hws []]
      simp only [List.reverse_nil, List.nil_append, List.foldl_cons,
        List.foldl_nil, Nat.zero_add]
      rw [partWeight_render hwf.1 hletter.1]
      simp [selectorSpecSpec]
    | cons r rs =>
      show (splitWsCL (renderSelCL (s :: r :: rs))).foldl _ 0 = _
      unfold splitWsCL
      rw [show renderSelCL (s :: r :: rs) =
        renderSimpleSel s ++ ' ' :: renderSelCL (r :: rs) from rfl]
      rw [splitWsGo_part _ hws []]
      have hr : wfSimpleSel r = true := by
        have := hwf.2
        simp only [List.all_cons, Bool.and_eq_true] at this
        exact this.1
      obtain ⟨c, cs, hcs, hcw⟩ :
          ∃ c cs, renderSelCL (r :: rs) = c :: cs ∧ isWsChar c = false := by
        rw [renderSelCL_cons]
        cases hd : renderSimpleSel r with
        | nil => exact absurd hd (renderSimpleSel_ne_nil hr)
        | cons c cs =>
          refine ⟨c, _, by rw [List.cons_append], ?_⟩
          exact renderSimpleSel_wsfree hr c (by rw [hd]; simp)
      rw [splitWsSkip_eq_go hcs hcw]
      simp only [List.reverse_nil, List.nil_append, List.foldl_cons,
        Nat.zero_add]
      rw [partWeight_render hwf.1 hletter.1]
      rw [foldl_partWeight_shift]
      have ihr := ih hwf.2 hletter.2
      show specWeight s + (splitWsCL (renderSelCL (r :: rs))).foldl _ 0 = _
      rw [show (splitWsCL (renderSelCL (r :: rs))).foldl
        (fun a p => a + partWeight p) 0 =
        calculateSpecificity (renderSelector (r :: rs)) from rfl]
      rw [ihr]
      simp [selectorSpecSpec]

/-- Witness for the amended C3: the two-selector string `Window
Button:hover` evaluates to the formula value (1 + 1). -/
theorem c3_specificity_formula_witness :
    calculateSpecificity (renderSelector
      [SimpleSel.tagSel "Window" none,
       SimpleSel.tagSel "Button" (some "hover")]) =
      selectorSpecSpec
        [SimpleSel.tagSel "Window" none,
         SimpleSel.tagSel "Button" (some "hover")] :=
  c3_specificity_formula.1
    [SimpleSel.tagSel "Window" none, SimpleSel.tagSel "Button" (some "hover")]
    (by decide) (by decide)

theorem parseValueTSS_unquoted (v : List Char) (w : Char) (r : List Char)
    (hv : v ≠ [])
    (hall : ∀ c ∈ v, (!(c = ';' || c = '}' || isWsChar c)) = true)
    (hq1 : v.head? ≠ some '"') (hq2 : v.head? ≠ some '\'')
    (hw : (!(w = ';' || w = '}' || isWsChar w)) = false) :
    parseValueTSS (v ++ w :: r) = (String.mk (trimCL v), w :: r) := by
  cases v with
  | nil => exact absurd rfl hv
  | cons c cs =>
    have hh1 : ((c :: cs ++ w :: r).head? = some '"') = False := by
      simp only [List.cons_append, List.head?_cons]
      simp only [List.head?_cons] at hq1
      simp [hq1]
    have hh2 : ((c :: cs ++ w :: r).head? = some '\'') = False := by
      simp only [List.cons_append, List.head?_cons]
      simp only [List.head?_cons] at hq2
      simp [hq2]
    unfold parseValueTSS
    rw [if_neg (by rw [hh1]; exact id), if_neg (by rw [hh2]; exact id)]
    dsimp only
    rw [spanP_append (c :: cs) hall (by simpa [headUnsat] using hw)]

theorem parsePropsF_ws_after_value (f : Nat) (acc : List (String × String))
    (n ws0 v : List Char) (w : Char) (rest : List Char)
    (hn : ∀ c ∈ n, isNameChar c = true)
    (hws0 : ∀ c ∈ ws0, isWsChar c = true)
    (hv : v ≠ [])
    (hall : ∀ c ∈ v, (!(c = ';' || c = '}' || isWsChar c)) = true)
    (hq1 : v.head? ≠ some '"') (hq2 : v.head? ≠ some '\'')
    (hw : isWsChar w = true) :
    parsePropsF (f + 1) acc (n ++ ':' :: (ws0 ++ v ++ w :: rest)) =
      .error { msg := "Expected ; after property value" } := by
  obtain ⟨c, tl, hshape, hcn⟩ :
      ∃ c tl, n ++ ':' :: (ws0 ++ v ++ w :: rest) = c :: tl ∧
        (isNameChar c = true ∨ c = ':') := by
    cases n with
    | nil => exact ⟨':', _, rfl, Or.inr rfl⟩
    | cons a as =>
      exact ⟨a, as ++ ':' :: (ws0 ++ v ++ w :: rest), List.cons_append a as _,
        Or.inl (hn a (by simp))⟩
  have hcne : ¬(c = '}') := by
    rcases hcn with h | h
    · exact ne_of_sat_of_unsat h (by decide)
    · subst h; decide
  have hcws : isWsChar c = false := by
    rcases hcn with h | h
    · exact isNameChar_not_ws h
    · subst h; decide
  obtain ⟨hv0, tv, hvs⟩ : ∃ hv0 tv, v = hv0 :: tv := by
    cases v with
    | nil => exact absurd rfl hv
    | cons a as => exact ⟨a, as, rfl⟩
  have hvw : isWsChar hv0 = false := by
    have := hall hv0 (by rw [hvs]; simp)
    simp only [Bool.not_eq_true', Bool.or_eq_false_iff] at this
    exact this.2
  have hdrop : dropWs (n ++ ':' :: (ws0 ++ v ++ w :: rest)) =
      n ++ ':' :: (ws0 ++ v ++ w :: rest) := by
    rw [hshape]
    exact dropWs_cons_of_not_ws tl hcws
  rw [hshape, parsePropsF]
  rw [if_neg hcne]
  dsimp only
  rw [← hshape, hdrop]
  have hspan : spanP isNameChar (n ++ ':' :: (ws0 ++ v ++ w :: rest)) =
      (n, ':' :: (ws0 ++ v ++ w :: rest)) :=
    spanP_append n hn (by simp [headUnsat]; decide)
  have hhead : (n ++ ':' :: (ws0 ++ v ++ w :: rest)).head? = some c := by
    rw [hshape]; rfl
  rw [if_neg (by rw [hhead]; simp [hcne])]
  rw [hspan]
  dsimp only
  rw [show consumeP [':'] (':' :: (ws0 ++ v ++ w :: rest)) =
    some (ws0 ++ v ++ w :: rest) from by simp [consumeP]]
  have hdws : dropWs (ws0 ++ v ++ w :: rest) = v ++ w :: rest := by
    rw [List.append_assoc, dropWs_append _ hws0, hvs, List.cons_append]
    rw [dropWs_cons_of_not_ws _ hvw, ← List.cons_append, ← hvs]
  dsimp only
  rw [hdws]
  rw [parseValueTSS_unquoted v w rest hv hall hq1 hq2 (by simp [hw])]
  dsimp only
  have hwsemi : w ≠ ';' := ne_of_sat_of_unsat hw (by decide)
  rw [consumeP_head_ne [] rest hwsemi]

theorem parseTSS_rule_error (sel body : List Char) (e : TSSParseErr)
    (hne : sel ≠ []) (hsel : ∀ c ∈ sel, isNameChar c = true)
    (hbody : parsePropsF (body.length + 1) [] body = .error e) :
    parseTSS (String.mk (sel ++ '{' :: body)) = .error e := by
  obtain ⟨c, tl, hshape⟩ : ∃ c tl, sel ++ '{' :: body = c :: tl := by
    cases sel with
    | nil => exact absurd rfl hne
    | cons a as => exact ⟨a, as ++ '{' :: body, List.cons_append a as _⟩
  have hc : isNameChar c = true := by
    cases sel with
    | nil => exact absurd rfl hne
    | cons a as =>
      rw [List.cons_append] at hshape
      injection hshape with h1 h2
      exact h1 ▸ hsel a (by simp)
  have hdata : (String.mk (sel ++ '{' :: body)).data = sel ++ '{' :: body := rfl
  have htrim : dropWs (sel ++ '{' :: body) = sel ++ '{' :: body := by
    rw [hshape]
    exact dropWs_cons_of_not_ws tl (isNameChar_not_ws hc)
  have hroot : consumeP [':', 'r', 'o', 'o', 't'] (c :: tl) = none :=
    consumeP_head_ne _ _ (ne_of_sat_of_unsat hc (by decide))
  have hat : ¬((c :: tl).head? = some '@') := by
    simp only [List.head?_cons, Option.some.injEq]
    exact ne_of_sat_of_unsat hc (by decide)
  have hspan : spanP (fun d => !(d = '{')) (sel ++ '{' :: body) =
      (sel, '{' :: body) := by
    apply spanP_append
    · intro d hd
      simp only [Bool.not_eq_true', decide_eq_false_iff_not]
      exact ne_of_sat_of_unsat (hsel d hd) (by decide)
    · simp [headUnsat]
  have htrimsel : trimCL sel = sel :=
    trimCL_of_all_not_ws (fun d hd => isNameChar_not_ws (hsel d hd))
  have hselne : ¬(String.mk sel = "") := by
    intro hemp
    have : sel = [] := by
      have := congrArg String.data hemp
      simpa using this
    exact hne this
  have hrule : parseRuleTSS (c :: tl) = .error e := by
    unfold parseRuleTSS
    rw [← hshape, hspan]
    dsimp only
    rw [htrimsel]
    rw [if_neg hselne]
    rw [show consumeP ['{'] ('{' :: body) = some body from by simp [consumeP]]
    dsimp only
    rw [hbody]
  unfold parseTSS
  rw [hdata, htrim, hshape, parseTSSF]
  rw [hroot]
  rw [if_neg (by simp)]
  rw [if_neg hat]
  rw [hrule]

/-- Claim C4: a declaration whose value is not immediately followed by
`;` (here: whitespace, then a second declaration) makes the stylesheet
parse fail with the `Expected ; after property value` error — malformed
CSS is a hard error, not a warning. -/
theorem c4_missing_semicolon_errors
    (sel n1 ws0 v1 n2 v2 : String) (w : Char)
    (hselne : sel.data ≠ []) (hsel : ∀ c ∈ sel.data, isNameChar c = true)
    (hn1 : ∀ c ∈ n1.data, isNameChar c = true)
    (hws0 : ∀ c ∈ ws0.data, isWsChar c = true)
    (hv1ne : v1.data ≠ [])
    (hv1 : ∀ c ∈ v1.data, (!(c = ';' || c = '}' || isWsChar c)) = true)
    (hq1 : v1.data.head? ≠ some '"') (hq2 : v1.data.head? ≠ some '\'')
    (hw : isWsChar w = true) :
    parseTSS (sel ++ "\x7b" ++ n1 ++ ":" ++ ws0 ++ v1 ++ String.mk [w] ++
      n2 ++ ":" ++ v2 ++ ";\x7d") =
      .error { msg := "Expected ; after property value" } := by
  have harg : sel ++ "\x7b" ++ n1 ++ ":" ++ ws0 ++ v1 ++ String.mk [w] ++
      n2 ++ ":" ++ v2 ++ ";\x7d" =
      String.mk (sel.data ++ '{' :: (n1.data ++ ':' ::
        (ws0.data ++ v1.data ++ w ::
          (n2.data ++ ':' :: (v2.data ++ [';', '}']))))) := by
    apply String.ext
    simp [String.data_append]
  rw [harg]
  apply parseTSS_rule_error _ _ _ hselne hsel
  exact parsePropsF_ws_after_value _ [] n1.data ws0.data v1.data w
    (n2.data ++ ':' :: (v2.data ++ [';', '}'])) hn1 hws0 hv1ne hv1 hq1 hq2 hw

/-- Claim C10: an unquoted declaration value containing whitespace
between tokens (e.g. `padding: 10 20;`) fails the stylesheet parse:
`parseValue` consumes only the first whitespace-delimited token and the
immediately-expected `;` is not found. -/
theorem c10_ws_in_value_errors
    (sel n ws0 v1 v2 : String) (w : Char)
    (hselne : sel.data ≠ []) (hsel : ∀ c ∈ sel.data, isNameChar c = true)
    (hn : ∀ c ∈ n.data, isNameChar c = true)
    (hws0 : ∀ c ∈ ws0.data, isWsChar c = true)
    (hv1ne : v1.data ≠ [])
    (hv1 : ∀ c ∈ v1.data, (!(c = ';' || c = '}' || isWsChar c)) = true)
    (hq1 : v1.data.head? ≠ some '"') (hq2 : v1.data.head? ≠ some '\'')
    (hw : isWsChar w = true) :
    parseTSS (sel ++ "\x7b" ++ n ++ ":" ++ ws0 ++ v1 ++ String.mk [w] ++
      v2 ++ ";\x7d") =
      .error { msg := "Expected ; after property value" } ∧
    parseValueTSS (v1.data ++ w :: (v2.data ++ [';', '}'])) =
      (v1, w :: (v2.data ++ [';', '}'])) := by
  constructor
  · have harg : sel ++ "\x7b" ++ n ++ ":" ++ ws0 ++ v1 ++ String.mk [w] ++
        v2 ++ ";\x7d" =
        String.mk (sel.data ++ '{' :: (n.data ++ ':' ::
          (ws0.data ++ v1.data ++ w :: (v2.data ++ [';', '}'])))) := by
      apply String.ext
      simp [String.data_append]
    rw [harg]
    apply parseTSS_rule_error _ _ _ hselne hsel
    exact parsePropsF_ws_after_value _ [] n.data ws0.data v1.data w
      (v2.data ++ [';', '}']) hn hws0 hv1ne hv1 hq1 hq2 hw
  · rw [parseValueTSS_unquoted v1.data w _ hv1ne hv1 hq1 hq2 (by simp [hw])]
    have ht : trimCL v1.data = v1.data :=
      trimCL_of_all_not_ws (fun c hc => by
        have := hv1 c hc
        simp only [Bool.not_eq_true', Bool.or_eq_false_iff] at this
        exact this.2)
    rw [ht]

/-- Witness for C4: the spec's own example, `color: white` followed by
`background-color: #333;` with no semicolon between. -/
theorem c4_missing_semicolon_errors_witness :
    parseTSS ("Window" ++ "\x7b" ++ "color" ++ ":" ++ " " ++ "white" ++
      String.mk ['\n'] ++ "background-color" ++ ":" ++ "#333" ++ ";\x7d") =
      .error { msg := "Expected ; after property value" } :=
  c4_missing_semicolon_errors "Window" "color" " " "white" "background-color" "#333" '\n'
    (by decide) (by decide) (by decide) (by decide) (by decide) (by decide)
    (by decide) (by decide) (by decide)

/-- Witness for C10: `padding: 10 20;`. -/
theorem c10_ws_in_value_errors_witness :
    parseTSS ("Window" ++ "\x7b" ++ "padding" ++ ":" ++ " " ++ "10" ++
      String.mk [' '] ++ "20" ++ ";\x7d") =
      .error { msg := "Expected ; after property value" } ∧
    parseValueTSS (("10").data ++ ' ' :: (("20").data ++ [';', '}'])) =
      ("10", ' ' :: (("20").data ++ [';', '}'])) :=
  c10_ws_in_value_errors "Window" "padding" " " "10" "20" ' '
    (by decide) (by decide) (by decide) (by decide) (by decide) (by decide)
    (by decide) (by decide) (by decide)

theorem parseElemF_ok_head {f : Nat} {l : List Char} {r : TXMLNode × List Char}
    (h : parseElemF f l = .ok r) : l.head? = some '<' := by
  cases f with
  | zero => simp [parseElemF] at h
  | succ f =>
    cases l with
    | nil => simp [parseElemF, consumeP] at h
    | cons c cs =>
      by_cases hc : c = '<'
      · rw [hc]; rfl
      · rw [parseElemF, consumeP_head_ne _ _ hc] at h
        simp at h

theorem parseAttrsF_stop {f : Nat} {acc : List (String × String)} {c : Char}
    (r : List Char) (hws : isWsChar c = false) (hc : c = '>' ∨ c = '/') :
    parseAttrsF (f + 1) acc (c :: r) = .ok (acc, c :: r) := by
  rw [parseAttrsF]
  dsimp only
  rw [dropWs_cons_of_not_ws r hws]
  rcases hc with h | h <;> subst h <;> simp

/-- Claim C5: when the (trimmed) markup parses to a well-formed root
element, a root tag other than `App` makes `parse` fail with the
`Root element must be <App>` error, and with an `App` root any
non-whitespace content after the root makes it fail with the
`Unexpected content after root element` error. -/
theorem c5_root_and_trailing_errors (s : String) (root : TXMLNode) (rest : List Char)
    (h : parseElemF ((dropWs (trimCL s.data)).length + 1)
      (dropWs (trimCL s.data)) = .ok (root, rest)) :
    (root.tag ≠ "App" →
      parseTXML s = .error { msg := "Root element must be <App>" }) ∧
    (root.tag = "App" → dropWs rest ≠ [] →
      parseTXML s = .error { msg := "Unexpected content after root element" }) := by
  have hhead := parseElemF_ok_head h
  constructor
  · intro hne
    unfold parseTXML
    rw [if_pos hhead, h]
    dsimp only
    rw [if_pos hne]
  · intro heq hrest
    unfold parseTXML
    rw [if_pos hhead, h]
    dsimp only
    rw [if_neg (by simp [heq])]
    rw [if_neg (by simp [List.isEmpty_iff, hrest])]

/-- Witness for C5, exercising both halves: `<Window />` fails on the
root tag, `<App />x` fails on trailing content. -/
theorem c5_root_and_trailing_errors_witness :
    parseTXML "<Window />" = .error { msg := "Root element must be <App>" } ∧
    parseTXML "<App />x" =
      .error { msg := "Unexpected content after root element" } := by
  constructor
  · exact (c5_root_and_trailing_errors "<Window />" (.elem "Window" [] []) [] (by rfl)).1
      (by decide)
  · exact (c5_root_and_trailing_errors "<App />x" (.elem "App" [] []) ['x'] (by rfl)).2
      (by decide) (by decide)

/-- Claim C6: when the children of a `<Y …>` element have been parsed and
the input continues with a closing tag `</X>` for `X ≠ Y`, the parse
fails, and the error message contains both tag names. -/
theorem c6_mismatched_closing_errors (s : String) (y x : String) (body tail : List Char)
    (cs : List TXMLNode)
    (hshape : dropWs (trimCL s.data) = '<' :: (y.data ++ '>' :: body))
    (hy : ∀ c ∈ y.data, isNameChar c = true)
    (hx : ∀ c ∈ x.data, isNameChar c = true)
    (hne : x ≠ y)
    (hch : parseChildrenF (dropWs (trimCL s.data)).length body =
      .ok (cs, '<' :: '/' :: (x.data ++ '>' :: tail))) :
    ∃ e, parseTXML s = .error e ∧
      List.IsInfix y.data e.msg.data ∧ List.IsInfix x.data e.msg.data := by
  refine ⟨{ msg := "Mismatched closing tag: expected </" ++ y ++
    "> but found </" ++ x ++ ">" }, ?_, ?_, ?_⟩
  · unfold parseTXML
    rw [if_pos (by rw [hshape]; rfl)]
    rw [hshape, parseElemF]
    rw [show consumeP ['<'] ('<' :: (y.data ++ '>' :: body)) =
      some (y.data ++ '>' :: body) from by simp [consumeP]]
    dsimp only
    rw [spanP_append y.data hy (by simp [headUnsat]; decide)]
    dsimp only
    rw [parseAttrsF_stop body (by decide) (Or.inl rfl)]
    dsimp only
    rw [consumeP_head_ne _ _ (by decide : ('>' : Char) ≠ '/')]
    rw [show consumeP ['>'] ('>' :: body) = some body from by simp [consumeP]]
    dsimp only
    have hlen : ('<' :: (y.data ++ '>' :: body)).length =
        (dropWs (trimCL s.data)).length := by rw [hshape]
    rw [hlen, hch]
    dsimp only
    rw [show consumeP ['<', '/'] ('<' :: '/' :: (x.data ++ '>' :: tail)) =
      some (x.data ++ '>' :: tail) from by simp [consumeP]]
    dsimp only
    rw [spanP_append x.data hx (by simp [headUnsat]; decide)]
    dsimp only
    rw [if_pos (by
      intro hxy
      apply hne
      have : (String.mk x.data).data = (String.mk y.data).data := by rw [hxy]
      simp only [] at this
      exact String.ext this)]
  · refine ⟨("Mismatched closing tag: expected </").data,
      ("> but found </" ++ x ++ ">").data, ?_⟩
    simp [String.data_append, List.append_assoc]
  · refine ⟨("Mismatched closing tag: expected </" ++ y ++
      "> but found </").data, (">").data, ?_⟩
    simp [String.data_append, List.append_assoc]

/-- Witness for C6: `<Window></Button>` fails naming both `Window` and
`Button`. -/
theorem c6_mismatched_closing_errors_witness :
    ∃ e, parseTXML "<Window></Button>" = .error e ∧
      List.IsInfix ("Window").data e.msg.data ∧
      List.IsInfix ("Button").data e.msg.data :=
  c6_mismatched_closing_errors "<Window></Button>" "Window" "Button" ("</Button>").data [] []
    (by rfl) (by decide) (by decide) (by decide) (by rfl)

mutual

/-- The amended C7 text-shape invariant: every text child anywhere in a
parsed tree is non-empty and starts with a non-whitespace character
(leading whitespace is stripped by the child loop's `skipWhitespace`;
trailing whitespace survives, as the C7 counterexample shows). -/
def textInvNode : TXMLNode → Bool
  | .text s =>
    match s.data with
    | [] => false
    | c :: _ => !isWsChar c
  | .elem _ _ cs => textInvKids cs

def textInvKids : List TXMLNode → Bool
  | [] => true
  | c :: cs => textInvNode c && textInvKids cs

end

theorem parse_textInv : ∀ f : Nat,
    (∀ l el rest, parseElemF f l = .ok (el, rest) → textInvNode el = true) ∧
    (∀ l cs rest, parseChildrenF f l = .ok (cs, rest) →
      textInvKids cs = true) := by
  intro f
  induction f with
  | zero =>
    constructor
    · intro l el rest h; simp [parseElemF] at h
    · intro l cs rest h; simp [parseChildrenF] at h
  | succ f ih =>
    constructor
    · intro l el rest h
      rw [parseElemF] at h
      split at h
      · simp at h
      · dsimp only at h
        split at h
        · simp at h
        · split at h
          · simp only [Except.ok.injEq, Prod.mk.injEq] at h
            rw [← h.1]
            rfl
          · split at h
            · simp at h
            · split at h
              · simp at h
              · split at h
                · simp at h
                · split at h
                  · simp at h
                  · split at h
                    · simp at h
                    · simp only [Except.ok.injEq, Prod.mk.injEq] at h
                      rw [← h.1]
                      exact ih.2 _ _ _ (by assumption)
    · intro l cs rest h
      rw [parseChildrenF.eq_def] at h
      dsimp only at h
      split at h
      · simp only [Except.ok.injEq, Prod.mk.injEq] at h
        rw [← h.1]
        rfl
      · split at h
        · simp only [Except.ok.injEq, Prod.mk.injEq] at h
          rw [← h.1]
          rfl
        · split at h
          · simp only [Except.ok.injEq, Prod.mk.injEq] at h
            rw [← h.1]
            rfl
          · rename_i hcons c l2 hl1
            split at h
            · split at h
              · exact ih.2 _ _ _ h
              · split at h
                · simp at h
                · split at h
                  · simp at h
                  · simp only [Except.ok.injEq, Prod.mk.injEq] at h
                    rw [← h.1]
                    show (textInvNode _ && textInvKids _) = true
                    rw [ih.1 _ _ _ (by assumption), ih.2 _ _ _ (by assumption)]
                    rfl
            · split at h
              · simp at h
              · simp only [Except.ok.injEq, Prod.mk.injEq] at h
                rw [← h.1]
                split
                · exact ih.2 _ _ _ (by assumption)
                · show (textInvNode _ && textInvKids _) = true
                  rw [ih.2 _ _ _ (by assumption)]
                  have hc : isWsChar c = false := dropWs_head_not_ws hl1
                  show (match (String.mk (spanP _ (c :: l2)).1).data with
                    | [] => false
                    | d :: _ => !isWsChar d) && true = true
                  rw [show (spanP (fun d => !(d = '<')) (c :: l2)).1 =
                    c :: (spanP (fun d => !(d = '<')) l2).1 from by
                      rw [spanP]
                      rw [if_pos (by simp only [Bool.not_eq_true',
                        decide_eq_false_iff_not]; assumption)]]
                  simp [hc]

/-- Claim C7 (amended): in every successfully parsed markup text,
whitespace-only text between elements produces no child node, and every
kept text child is non-empty with its *leading* whitespace stripped (its
first character is non-whitespace) — but not fully trimmed: trailing
whitespace before the next tag is preserved (see the counterexample).
Element and text children stay interleaved in source order by
construction of the child loop. -/
theorem c7_text_children_shape (s : String) (root : TXMLNode)
    (h : parseTXML s = .ok root) : textInvNode root = true := by
  unfold parseTXML at h
  dsimp only at h
  split at h
  · split at h
    · simp at h
    · split at h
      · simp at h
      · split at h
        · simp only [Except.ok.injEq] at h
          rw [← h]
          exact (parse_textInv _).1 _ _ _ (by assumption)
        · simp at h
  · simp at h

/-- Witness for the amended C7: `<App>hi <Button />tail</App>` parses and
its text children `"hi "` and `"tail"` satisfy the shape invariant. -/
theorem c7_text_children_shape_witness :
    textInvNode (.elem "App" []
      [.text "hi ", .elem "Button" [] [], .text "tail"]) = true :=
  c7_text_children_shape "<App>hi <Button />tail</App>"
    (.elem "App" [] [.text "hi ", .elem "Button" [] [], .text "tail"])
    (by rfl)

theorem escAttrChar_id {c : Char} (h : isAttrValChar c = true) :
    escAttrChar c = [c] := by
  simp only [isAttrValChar, Bool.not_eq_true', Bool.or_eq_false_iff,
    decide_eq_false_iff_not] at h
  unfold escAttrChar
  rw [if_neg h.1.1.1.1, if_neg h.1.1.1.2, if_neg h.1.1.2, if_neg h.1.2,
    if_neg h.2]

theorem escAttr_id {l : List Char} (h : ∀ c ∈ l, isAttrValChar c = true) :
    escAttr l = l := by
  induction l with
  | nil => rfl
  | cons c cs ih =>
    unfold escAttr at *
    simp only [List.map_cons, List.flatten_cons]
    rw [escAttrChar_id (h c (by simp)), ih (fun d hd => h d (by simp [hd]))]
    rfl

theorem length_le_serAttrsCore (attrs : List (String × String)) :
    attrs.length ≤ (serAttrsCore attrs).length := by
  induction attrs with
  | nil => simp [serAttrsCore]
  | cons hd tl ih =>
    obtain ⟨k, v⟩ := hd
    cases tl with
    | nil =>
      simp only [serAttrsCore, List.length_append, List.length_cons,
        List.length_nil]
      omega
    | cons h2 t2 =>
      show (h2 :: t2).length + 1 ≤ _
      simp only [serAttrsCore, List.length_append, List.length_cons]
      have := ih
      simp only [List.length_cons] at this ⊢
      omega

theorem attrOkB_parts {k v : String} (h : attrOkB (k, v) = true) :
    k.data ≠ [] ∧ (∀ c ∈ k.data, isNameChar c = true) ∧
      (∀ c ∈ v.data, isAttrValChar c = true) := by
  simp only [attrOkB, Bool.and_eq_true, List.all_eq_true] at h
  refine ⟨?_, h.1.2, h.2⟩
  intro hd
  have : k = "" := String.ext hd
  rw [this] at h
  exact absurd h.1.1 (by decide)

theorem parseAttrsF_ser :
    ∀ (attrs : List (String × String)) (f : Nat)
      (acc : List (String × String)) (ws0 tail tailD : List Char),
    (∀ p ∈ attrs, attrOkB p = true) → keysNodupB attrs = true →
    (∀ p ∈ attrs, ∀ q ∈ acc, ¬(q.1 = p.1)) →
    (∀ c ∈ ws0, isWsChar c = true) →
    dropWs tail = tailD →
    (tailD.head? = some '>' ∨ tailD.head? = some '/') →
    attrs.length < f →
    parseAttrsF f acc (ws0 ++ (serAttrsCore attrs ++ tail)) =
      .ok (acc ++ attrs, tailD) := by
  intro attrs
  induction attrs with
  | nil =>
    intro f acc ws0 tail tailD _ _ _ hws0 htail hhead hf
    obtain ⟨c, r, hcr⟩ : ∃ c r, tailD = c :: r := by
      rcases hhead with h | h <;> cases tailD with
      | nil => simp at h
      | cons c r => exact ⟨c, r, rfl⟩
    have hcsel : (c = '>' || c = '/') = true := by
      rcases hhead with h | h <;> rw [hcr] at h <;>
        simp only [List.head?_cons, Option.some.injEq] at h <;> simp [h]
    cases f with
    | zero => omega
    | succ f =>
      rw [parseAttrsF]
      dsimp only
      rw [show serAttrsCore [] ++ tail = tail from rfl]
      rw [dropWs_append tail hws0, htail, hcr]
      dsimp only
      rw [if_pos hcsel]
      simp [hcr]
  | cons hd rest ih =>
    intro f acc ws0 tail tailD hok hnodup hkeys hws0 htail hhead hf
    obtain ⟨k, v⟩ := hd
    obtain ⟨hkne, hkname, hvval⟩ := attrOkB_parts (hok (k, v) (by simp))
    obtain ⟨kc, kr, hk⟩ : ∃ kc kr, k.data = kc :: kr := by
      cases hkd : k.data with
      | nil => exact absurd hkd hkne
      | cons a b => exact ⟨a, b, rfl⟩
    have hkcname : isNameChar kc = true := hkname kc (by rw [hk]; simp)
    have hesc : escAttr v.data = v.data := escAttr_id hvval
    -- the serialized head entry, with the separator/tail merged behind it
    obtain ⟨SEP, hsep, hsepshape⟩ :
        ∃ SEP, serAttrsCore ((k, v) :: rest) ++ tail =
          k.data ++ '=' :: '"' :: (v.data ++ '"' :: SEP) ∧
          ((rest = [] ∧ SEP = tail) ∨
           (rest ≠ [] ∧ SEP = ' ' :: (serAttrsCore rest ++ tail))) := by
      cases rest with
      | nil =>
        refine ⟨tail, ?_, Or.inl ⟨rfl, rfl⟩⟩
        simp [serAttrsCore, hesc, List.append_assoc]
      | cons r2 rs =>
        refine ⟨' ' :: (serAttrsCore (r2 :: rs) ++ tail), ?_,
          Or.inr ⟨by simp, rfl⟩⟩
        simp [serAttrsCore, hesc, List.append_assoc]
    cases f with
    | zero => omega
    | succ f =>
      rw [parseAttrsF]
      dsimp only
      rw [hsep]
      have hdws : dropWs (ws0 ++ (k.data ++ '=' :: '"' :: (v.data ++ '"' :: SEP))) =
          k.data ++ '=' :: '"' :: (v.data ++ '"' :: SEP) := by
        rw [dropWs_append _ hws0, hk, List.cons_append]
        rw [dropWs_cons_of_not_ws _ (isNameChar_not_ws hkcname), ← List.cons_append, ← hk]
      rw [hdws, hk, List.cons_append]
      dsimp only
      rw [if_neg (by
        simp only [Bool.or_eq_true, decide_eq_true_eq]
        rintro (h | h) <;>
          exact ne_of_sat_of_unsat hkcname (by decide) h)]
      rw [← List.cons_append, ← hk]
      rw [spanP_append k.data hkname (by simp only [headUnsat]; decide)]
      dsimp only
      rw [show consumeP ['='] ('=' :: '"' :: (v.data ++ '"' :: SEP)) =
        some ('"' :: (v.data ++ '"' :: SEP)) from by simp [consumeP]]
      dsimp only
      rw [show parseAttrValue ('"' :: (v.data ++ '"' :: SEP)) =
          .ok (v, SEP) from by
        unfold parseAttrValue
        rw [show consumeP ['"'] ('"' :: (v.data ++ '"' :: SEP)) =
          some (v.data ++ '"' :: SEP) from by simp [consumeP]]
        dsimp only
        rw [spanP_append v.data (fun c hc => by
            have := hvval c hc
            simp only [isAttrValChar, Bool.not_eq_true', Bool.or_eq_false_iff,
              decide_eq_false_iff_not] at this
            simp [this.1.1.1.2])
          (by simp only [headUnsat]; decide)]
        dsimp only
        rw [show consumeP ['"'] ('"' :: SEP) = some SEP from by
          simp [consumeP]]]
      dsimp only
      have hset : setEntry acc k v = acc ++ [(k, v)] :=
        setEntry_append v (fun q hq => hkeys (k, v) (by simp) q hq)
      rw [hset]
      have hnodup2 : keysNodupB rest = true := by
        simp only [keysNodupB, Bool.and_eq_true] at hnodup
        exact hnodup.2
      have hkeyhd : (rest.any (fun q => q.1 = k)) = false := by
        simp only [keysNodupB, Bool.and_eq_true, Bool.not_eq_true'] at hnodup
        exact hnodup.1
      have hkeys2 : ∀ p ∈ rest, ∀ q ∈ acc ++ [(k, v)], ¬(q.1 = p.1) := by
        intro p hp q hq
        rcases List.mem_append.mp hq with hqa | hqk
        · exact hkeys p (by simp [hp]) q hqa
        · have : q = (k, v) := by simpa using hqk
          subst this
          intro hqe
          have hany : rest.any (fun q => q.1 = k) = true :=
            List.any_eq_true.mpr ⟨p, hp, by
              simp only [decide_eq_true_eq]
              exact hqe.symm⟩
          rw [hkeyhd] at hany
          exact Bool.false_ne_true hany
      have hok2 : ∀ p ∈ rest, attrOkB p = true :=
        fun p hp => hok p (by simp [hp])
      rcases hsepshape with ⟨hrest, hSEP⟩ | ⟨hrest, hSEP⟩
      · subst hrest
        subst hSEP
        have := ih f (acc ++ [(k, v)]) [] SEP tailD hok2 hnodup2 hkeys2
          (by simp) htail hhead (by simp at hf ⊢; omega)
        simpa using this
      · subst hSEP
        have := ih f (acc ++ [(k, v)]) [' '] tail tailD hok2 hnodup2 hkeys2
          (by decide) htail hhead (by simp at hf ⊢; omega)
        simp only [List.cons_append, List.nil_append] at this
        rw [this]
        simp

theorem consumeP_one (c : Char) (r : List Char) :
    consumeP [c] (c :: r) = some r := by simp [consumeP]

theorem tagOkB_parts {tag : String} (h : tagOkB tag = true) :
    tag.data ≠ [] ∧ (∀ c ∈ tag.data, isNameChar c = true) := by
  simp only [tagOkB, Bool.and_eq_true, List.all_eq_true] at h
  refine ⟨?_, h.2⟩
  intro hd
  have : tag = "" := String.ext hd
  rw [this] at h
  exact absurd h.1 (by decide)

theorem serAttrsCore_cons_ne_nil (p : String × String)
    (rest : List (String × String)) : serAttrsCore (p :: rest) ≠ [] := by
  obtain ⟨k, v⟩ := p
  cases rest with
  | nil => simp [serAttrsCore]
  | cons a b => simp [serAttrsCore]

theorem goodNode_elem_parts {tag : String} {attrs : List (String × String)}
    {cs : List TXMLNode} (h : goodNode (.elem tag attrs cs) = true) :
    tagOkB tag = true ∧ (∀ p ∈ attrs, attrOkB p = true) ∧
      keysNodupB attrs = true ∧ noAdjTextB cs = true ∧
      goodKids cs = true := by
  rw [goodNode] at h
  simp only [Bool.and_eq_true, List.all_eq_true] at h
  exact ⟨h.1.1.1.1, h.1.1.1.2, h.1.1.2, h.1.2, h.2⟩

theorem goodKids_cons {c : TXMLNode} {cs : List TXMLNode}
    (h : goodKids (c :: cs) = true) :
    goodNode c = true ∧ goodKids cs = true := by
  rw [goodKids] at h
  simpa using h

theorem noAdjTextB_tail {c : TXMLNode} {cs : List TXMLNode}
    (h : noAdjTextB (c :: cs) = true) : noAdjTextB cs = true := by
  cases c with
  | text s =>
    cases cs with
    | nil => rfl
    | cons c2 cs2 =>
      cases c2 with
      | text s2 => simp [noAdjTextB] at h
      | elem t a k => exact h
  | elem t a k => exact h

theorem serNode_nil_nil_eq (tag : String) (rest : List Char) :
    serNode (.elem tag [] []) ++ rest =
      '<' :: (tag.data ++ (' ' :: '/' :: '>' :: rest)) := by
  rw [serNode]
  rw [show serAttrsCore [] = [] from rfl]
  simp [List.cons_append, List.append_assoc]

theorem serNode_attr_nil_eq (tag : String) (a : String × String)
    (as : List (String × String)) (rest : List Char) :
    serNode (.elem tag (a :: as) []) ++ rest =
      '<' :: (tag.data ++ (' ' :: (serAttrsCore (a :: as) ++
        (' ' :: '/' :: '>' :: rest)))) := by
  rw [serNode]
  rw [if_neg (by simp [serAttrsCore_cons_ne_nil])]
  simp [List.cons_append, List.append_assoc]

theorem serNode_nil_cons_eq (tag : String) (c0 : TXMLNode)
    (cs0 : List TXMLNode) (rest : List Char) :
    serNode (.elem tag [] (c0 :: cs0)) ++ rest =
      '<' :: (tag.data ++ ('>' :: (serKids (c0 :: cs0) ++
        ('<' :: '/' :: (tag.data ++ '>' :: rest))))) := by
  rw [serNode]
  rw [show serAttrsCore [] = [] from rfl]
  simp [List.cons_append, List.append_assoc]

theorem serNode_attr_cons_eq (tag : String) (a : String × String)
    (as : List (String × String)) (c0 : TXMLNode) (cs0 : List TXMLNode)
    (rest : List Char) :
    serNode (.elem tag (a :: as) (c0 :: cs0)) ++ rest =
      '<' :: (tag.data ++ (' ' :: (serAttrsCore (a :: as) ++
        ('>' :: (serKids (c0 :: cs0) ++
          ('<' :: '/' :: (tag.data ++ '>' :: rest))))))) := by
  rw [serNode]
  rw [if_neg (by simp [serAttrsCore_cons_ne_nil])]
  simp [List.cons_append, List.append_assoc]

theorem serNode_elem_shape2 {tag : String} (attrs : List (String × String))
    (cs : List TXMLNode) (htag : tagOkB tag = true) :
    ∃ d t, serNode (.elem tag attrs cs) ++ ([] : List Char) =
      '<' :: d :: t ∧ isNameChar d = true := by
  obtain ⟨hne, hname⟩ := tagOkB_parts htag
  obtain ⟨d, dr, hd⟩ : ∃ d dr, tag.data = d :: dr := by
    cases h : tag.data with
    | nil => exact absurd h hne
    | cons a b => exact ⟨a, b, rfl⟩
  have hdn : isNameChar d = true := hname d (by rw [hd]; simp)
  cases attrs with
  | nil =>
    cases cs with
    | nil =>
      rw [serNode_nil_nil_eq, hd]
      exact ⟨d, _, by rw [List.cons_append], hdn⟩
    | cons c0 cs0 =>
      rw [serNode_nil_cons_eq, hd]
      exact ⟨d, _, by rw [List.cons_append], hdn⟩
  | cons a as =>
    cases cs with
    | nil =>
      rw [serNode_attr_nil_eq, hd]
      exact ⟨d, _, by rw [List.cons_append], hdn⟩
    | cons c0 cs0 =>
      rw [serNode_attr_cons_eq, hd]
      exact ⟨d, _, by rw [List.cons_append], hdn⟩

theorem serNode_ne_nil {c : TXMLNode} (h : goodNode c = true) :
    serNode c ≠ [] := by
  cases c with
  | text s =>
    rw [goodNode] at h
    rw [textOkB] at h
    rw [serNode]
    split at h
    · cases h
    · rename_i c rest heq
      rw [heq]
      simp
  | elem tag attrs cs =>
    intro hnil
    have h2 := goodNode_elem_parts h
    obtain ⟨d, t, hshape, _⟩ := serNode_elem_shape2 attrs cs h2.1
    rw [List.append_nil, hnil] at hshape
    cases hshape

theorem textOkB_parts {s : String} (h : textOkB s = true) :
    ∃ c t, s.data = c :: t ∧ isWsChar c = false ∧
      (∀ d ∈ s.data, (!(d = '<')) = true) := by
  rw [textOkB] at h
  split at h
  · cases h
  · rename_i c t heq
    simp only [Bool.and_eq_true, Bool.not_eq_true', List.all_eq_true] at h
    exact ⟨c, t, heq, h.1, fun d hd => by simp [h.2 d hd]⟩

theorem rt_main : ∀ f : Nat,
    (∀ (tag : String) (attrs : List (String × String)) (cs : List TXMLNode)
       (rest : List Char),
       goodNode (.elem tag attrs cs) = true →
       (serNode (.elem tag attrs cs)).length ≤ f →
       parseElemF f (serNode (.elem tag attrs cs) ++ rest) =
         .ok (.elem tag attrs cs, rest)) ∧
    (∀ (cs : List TXMLNode) (rest : List Char),
       goodKids cs = true → noAdjTextB cs = true →
       (serKids cs).length + 1 ≤ f →
       parseChildrenF f (serKids cs ++ '<' :: '/' :: rest) =
         .ok (cs, '<' :: '/' :: rest)) := by
  intro f
  induction f with
  | zero =>
    constructor
    · intro tag attrs cs rest hgood hlen
      exfalso
      have := serNode_ne_nil hgood
      cases h : serNode (.elem tag attrs cs) with
      | nil => exact this h
      | cons a b => rw [h] at hlen; simp at hlen
    · intro cs rest _ _ hlen
      omega
  | succ f ih =>
    constructor
    · intro tag attrs cs rest hgood hlen
      obtain ⟨htag, hattrs, hnodup, hnoadj, hkids⟩ := goodNode_elem_parts hgood
      obtain ⟨htagne, htagname⟩ := tagOkB_parts htag
      have htaglen : 1 ≤ tag.data.length := by
        cases h : tag.data with
        | nil => exact absurd h htagne
        | cons a b => simp
      cases attrs with
      | nil =>
        cases cs with
        | nil =>
          have hsn : serNode (.elem tag [] []) =
              '<' :: (tag.data ++ (' ' :: '/' :: '>' :: [])) := by
            have := serNode_nil_nil_eq tag []
            simpa using this
          rw [serNode_nil_nil_eq, parseElemF, consumeP_one]
          dsimp only
          rw [spanP_append tag.data htagname (by simp only [headUnsat]; decide)]
          dsimp only
          have hattrs0 := parseAttrsF_ser [] ((' ' :: '/' :: '>' :: rest).length + 1)
            [] [' '] ('/' :: '>' :: rest) ('/' :: '>' :: rest)
            (by simp) rfl (by simp) (by decide)
            (dropWs_cons_of_not_ws _ (by decide)) (Or.inr rfl) (by simp)
          simp only [List.cons_append, List.nil_append,
            show serAttrsCore [] = [] from rfl, List.append_nil] at hattrs0
          rw [hattrs0]
          dsimp only
          rw [show consumeP ['/', '>'] ('/' :: '>' :: rest) = some rest from by
            simp [consumeP]]
        | cons c0 cs0 =>
          have hsn : serNode (.elem tag [] (c0 :: cs0)) =
              '<' :: (tag.data ++ ('>' :: (serKids (c0 :: cs0) ++
                ('<' :: '/' :: (tag.data ++ '>' :: []))))) := by
            have := serNode_nil_cons_eq tag c0 cs0 []
            simpa using this
          have hlen2 : (serKids (c0 :: cs0)).length + 1 ≤ f := by
            rw [hsn] at hlen
            simp only [List.length_cons, List.length_append] at hlen
            omega
          rw [serNode_nil_cons_eq, parseElemF, consumeP_one]
          dsimp only
          rw [spanP_append tag.data htagname (by simp only [headUnsat]; decide)]
          dsimp only
          have hattrs0 := parseAttrsF_ser []
            (('>' :: (serKids (c0 :: cs0) ++
              ('<' :: '/' :: (tag.data ++ '>' :: rest)))).length + 1)
            [] [] ('>' :: (serKids (c0 :: cs0) ++
              ('<' :: '/' :: (tag.data ++ '>' :: rest))))
            ('>' :: (serKids (c0 :: cs0) ++
              ('<' :: '/' :: (tag.data ++ '>' :: rest))))
            (by simp) rfl (by simp) (by simp)
            (dropWs_cons_of_not_ws _ (by decide)) (Or.inl rfl) (by simp)
          simp only [List.nil_append, show serAttrsCore [] = [] from rfl,
            List.append_nil] at hattrs0
          rw [hattrs0]
          dsimp only
          rw [consumeP_head_ne _ _ (by decide : ('>' : Char) ≠ '/')]
          dsimp only
          rw [consumeP_one]
          dsimp only
          rw [ih.2 (c0 :: cs0) (tag.data ++ '>' :: rest) hkids hnoadj hlen2]
          dsimp only
          rw [show consumeP ['<', '/'] ('<' :: '/' :: (tag.data ++ '>' :: rest)) =
            some (tag.data ++ '>' :: rest) from by simp [consumeP]]
          dsimp only
          rw [spanP_append tag.data htagname (by simp only [headUnsat]; decide)]
          dsimp only
          rw [if_neg (fun h => h rfl)]
          rw [consumeP_one]
      | cons a as =>
        have hserne := serAttrsCore_cons_ne_nil a as
        have hserlen := length_le_serAttrsCore (a :: as)
        cases cs with
        | nil =>
          have hsn : serNode (.elem tag (a :: as) []) =
              '<' :: (tag.data ++ (' ' :: (serAttrsCore (a :: as) ++
                (' ' :: '/' :: '>' :: [])))) := by
            have := serNode_attr_nil_eq tag a as []
            simpa using this
          rw [serNode_attr_nil_eq, parseElemF, consumeP_one]
          dsimp only
          rw [spanP_append tag.data htagname (by simp only [headUnsat]; decide)]
          dsimp only
          have hattrs0 := parseAttrsF_ser (a :: as)
            ((' ' :: (serAttrsCore (a :: as) ++ (' ' :: '/' :: '>' :: rest))).length + 1)
            [] [' '] (' ' :: '/' :: '>' :: rest) ('/' :: '>' :: rest)
            hattrs hnodup (by simp) (by decide)
            (by
              rw [dropWs, if_pos (by decide : isWsChar ' ' = true)]
              exact dropWs_cons_of_not_ws _ (by decide))
            (Or.inr rfl)
            (by
              simp only [List.length_cons, List.length_append]
              simp only [List.length_cons] at hserlen
              omega)
          simp only [List.cons_append, List.nil_append, List.append_assoc]
            at hattrs0 ⊢
          rw [hattrs0]
          dsimp only
          rw [show consumeP ['/', '>'] ('/' :: '>' :: rest) = some rest from by
            simp [consumeP]]
        | cons c0 cs0 =>
          have hsn : serNode (.elem tag (a :: as) (c0 :: cs0)) =
              '<' :: (tag.data ++ (' ' :: (serAttrsCore (a :: as) ++
                ('>' :: (serKids (c0 :: cs0) ++
                  ('<' :: '/' :: (tag.data ++ '>' :: []))))))) := by
            have := serNode_attr_cons_eq tag a as c0 cs0 []
            simpa using this
          have hlen2 : (serKids (c0 :: cs0)).length + 1 ≤ f := by
            rw [hsn] at hlen
            simp only [List.length_cons, List.length_append] at hlen
            omega
          rw [serNode_attr_cons_eq, parseElemF, consumeP_one]
          dsimp only
          rw [spanP_append tag.data htagname (by simp only [headUnsat]; decide)]
          dsimp only
          have hattrs0 := parseAttrsF_ser (a :: as)
            ((' ' :: (serAttrsCore (a :: as) ++
              ('>' :: (serKids (c0 :: cs0) ++
                ('<' :: '/' :: (tag.data ++ '>' :: rest)))))).length + 1)
            [] [' ']
            ('>' :: (serKids (c0 :: cs0) ++
              ('<' :: '/' :: (tag.data ++ '>' :: rest))))
            ('>' :: (serKids (c0 :: cs0) ++
              ('<' :: '/' :: (tag.data ++ '>' :: rest))))
            hattrs hnodup (by simp) (by decide)
            (dropWs_cons_of_not_ws _ (by decide)) (Or.inl rfl)
            (by
              simp only [List.length_cons, List.length_append]
              simp only [List.length_cons] at hserlen
              omega)
          simp only [List.cons_append, List.nil_append, List.append_assoc]
            at hattrs0 ⊢
          rw [hattrs0]
          dsimp only
          rw [consumeP_head_ne _ _ (by decide : ('>' : Char) ≠ '/')]
          dsimp only
          rw [consumeP_one]
          dsimp only
          rw [ih.2 (c0 :: cs0) (tag.data ++ '>' :: rest) hkids hnoadj hlen2]
          dsimp only
          rw [show consumeP ['<', '/'] ('<' :: '/' :: (tag.data ++ '>' :: rest)) =
            some (tag.data ++ '>' :: rest) from by simp [consumeP]]
          dsimp only
          rw [spanP_append tag.data htagname (by simp only [headUnsat]; decide)]
          dsimp only
          rw [if_neg (fun h => h rfl)]
          rw [consumeP_one]
    · intro cs rest hkids hnoadj hlen
      cases cs with
      | nil =>
        rw [show serKids [] ++ '<' :: '/' :: rest = '<' :: '/' :: rest from rfl]
        rw [parseChildrenF]
        dsimp only
        rw [dropWs_cons_of_not_ws _ (by decide)]
        rw [if_pos (by simp [consumeP])]
      | cons c0 cs0 =>
        obtain ⟨hg0, hgs⟩ := goodKids_cons hkids
        have hnoadj0 := noAdjTextB_tail hnoadj
        cases c0 with
        | text s =>
          obtain ⟨tc, tt, hsd, htcw, hlt⟩ := textOkB_parts (by rwa [goodNode] at hg0)
          -- the input starts with the text characters
          have hser : serKids (.text s :: cs0) ++ '<' :: '/' :: rest =
              tc :: (tt ++ (serKids cs0 ++ '<' :: '/' :: rest)) := by
            rw [show serKids (.text s :: cs0) = serNode (.text s) ++ serKids cs0
              from rfl]
            rw [show serNode (.text s) = s.data from rfl, hsd]
            simp [List.cons_append, List.append_assoc]
          rw [hser, parseChildrenF]
          dsimp only
          rw [dropWs_cons_of_not_ws _ htcw]
          have htcnlt : ¬(tc = '<') := by
            have := hlt tc (by rw [hsd]; simp)
            simpa using this
          rw [if_neg (by
            rw [consumeP_head_ne _ _ htcnlt]
            simp)]
          dsimp only
          rw [if_neg htcnlt]
          -- the text span takes exactly s.data
          have hspan : spanP (fun d => !(d = '<'))
              (tc :: (tt ++ (serKids cs0 ++ '<' :: '/' :: rest))) =
              (s.data, serKids cs0 ++ '<' :: '/' :: rest) := by
            rw [show tc :: (tt ++ (serKids cs0 ++ '<' :: '/' :: rest)) =
              s.data ++ (serKids cs0 ++ '<' :: '/' :: rest) from by
                rw [hsd]; simp [List.cons_append]]
            apply spanP_append _ hlt
            cases cs0 with
            | nil =>
              rw [show serKids [] ++ '<' :: '/' :: rest = '<' :: '/' :: rest
                from rfl]
              simp [headUnsat]
            | cons c1 cs1 =>
              cases c1 with
              | text s2 =>
                exfalso
                simp [noAdjTextB] at hnoadj
              | elem t2 a2 k2 =>
                obtain ⟨hg1, _⟩ := goodKids_cons hgs
                have h2 := goodNode_elem_parts hg1
                obtain ⟨d, t, hshape, hdn⟩ := serNode_elem_shape2 a2 k2 h2.1
                rw [List.append_nil] at hshape
                rw [show serKids (.elem t2 a2 k2 :: cs1) =
                  serNode (.elem t2 a2 k2) ++ serKids cs1 from rfl, hshape]
                simp [headUnsat]
          rw [hspan]
          dsimp only
          have hrec := ih.2 cs0 rest hgs hnoadj0 (by
            have : (serKids (.text s :: cs0)).length =
                s.data.length + (serKids cs0).length := by
              rw [show serKids (.text s :: cs0) = serNode (.text s) ++ serKids cs0
                from rfl]
              simp [serNode]
            rw [this] at hlen
            rw [hsd] at hlen
            simp at hlen
            omega)
          rw [hrec]
          dsimp only
          rw [if_neg (by
            rw [hsd]
            simp only [List.isEmpty_iff]
            exact trimCL_cons_ne_nil tt htcw)]
        | elem t2 a2 k2 =>
          have h2 := goodNode_elem_parts hg0
          obtain ⟨d, t, hshape, hdn⟩ := serNode_elem_shape2 a2 k2 h2.1
          rw [List.append_nil] at hshape
          have hser : serKids (.elem t2 a2 k2 :: cs0) ++ '<' :: '/' :: rest =
              '<' :: d :: (t ++ (serKids cs0 ++ '<' :: '/' :: rest)) := by
            rw [show serKids (.elem t2 a2 k2 :: cs0) =
              serNode (.elem t2 a2 k2) ++ serKids cs0 from rfl, hshape]
            simp [List.cons_append, List.append_assoc]
          rw [hser, parseChildrenF]
          dsimp only
          rw [dropWs_cons_of_not_ws _ (by decide)]
          have hd1 : ¬(d = '/') := ne_of_sat_of_unsat hdn (by decide)
          have hd2 : ¬(d = '!') := ne_of_sat_of_unsat hdn (by decide)
          rw [if_neg (by simp [consumeP, hd1])]
          dsimp only
          rw [if_pos (rfl : ('<' : Char) = '<')]
          rw [if_neg (by simp [consumeP, hd2])]
          -- lengths for the fuel bookkeeping
          have hklen : (serKids (.elem t2 a2 k2 :: cs0)).length =
              (serNode (.elem t2 a2 k2)).length + (serKids cs0).length := by
            rw [show serKids (.elem t2 a2 k2 :: cs0) =
              serNode (.elem t2 a2 k2) ++ serKids cs0 from rfl]
            simp
          have hellen : 1 ≤ (serNode (.elem t2 a2 k2)).length := by
            rw [hshape]
            simp
          have helem := ih.1 t2 a2 k2 (serKids cs0 ++ '<' :: '/' :: rest) hg0
            (by rw [hklen] at hlen; omega)
          rw [show '<' :: d :: (t ++ (serKids cs0 ++ '<' :: '/' :: rest)) =
            serNode (.elem t2 a2 k2) ++ (serKids cs0 ++ '<' :: '/' :: rest)
            from by rw [hshape]; simp [List.cons_append]]
          rw [helem]
          dsimp only
          have hrec := ih.2 cs0 rest hgs hnoadj0 (by rw [hklen] at hlen; omega)
          rw [hrec]

theorem serNode_elem_last (tag : String) (attrs : List (String × String))
    (cs : List TXMLNode) :
    ∃ M, serNode (.elem tag attrs cs) = '<' :: (M ++ ['>']) := by
  cases attrs with
  | nil =>
    cases cs with
    | nil =>
      refine ⟨tag.data ++ [' ', '/'], ?_⟩
      have := serNode_nil_nil_eq tag []
      simp only [List.append_nil] at this
      rw [this]
      simp [List.append_assoc]
    | cons c0 cs0 =>
      refine ⟨tag.data ++ '>' :: (serKids (c0 :: cs0) ++ '<' :: '/' :: tag.data), ?_⟩
      have := serNode_nil_cons_eq tag c0 cs0 []
      simp only [List.append_nil] at this
      rw [this]
      simp [List.append_assoc]
  | cons a as =>
    cases cs with
    | nil =>
      refine ⟨tag.data ++ ' ' :: (serAttrsCore (a :: as) ++ [' ', '/']), ?_⟩
      have := serNode_attr_nil_eq tag a as []
      simp only [List.append_nil] at this
      rw [this]
      simp [List.append_assoc]
    | cons c0 cs0 =>
      refine ⟨tag.data ++ ' ' :: (serAttrsCore (a :: as) ++
        '>' :: (serKids (c0 :: cs0) ++ '<' :: '/' :: tag.data)), ?_⟩
      have := serNode_attr_cons_eq tag a as c0 cs0 []
      simp only [List.append_nil] at this
      rw [this]
      simp [List.append_assoc]

/-- Claim C2 (amended): for every good tree (well-formed tag and
attribute names, no duplicate attribute names, attribute values free of
the five escaped characters, text children non-empty without leading
whitespace or `<`, no two adjacent text children) whose root tag is
`App`, serializing with `jsxToTXML` and re-parsing yields the same tree. -/
theorem c2_roundtrip_good (t : TXMLNode) (hg : goodNode t = true)
    (htag : t.tag = "App") : parseTXML (jsxToTXML t) = .ok t := by
  cases t with
  | text s =>
    rw [TXMLNode.tag] at htag
    exact absurd htag (by decide)
  | elem tag attrs cs =>
    have htag2 : tag = "App" := htag
    obtain ⟨M, hM⟩ := serNode_elem_last tag attrs cs
    have hdata : (jsxToTXML (.elem tag attrs cs)).data =
        serNode (.elem tag attrs cs) := rfl
    have htrim : trimCL (serNode (.elem tag attrs cs)) =
        serNode (.elem tag attrs cs) := by
      apply trimCL_eq_self
      · rw [hM]
        simp only [headUnsat]
        decide
      · rw [hM]
        rw [List.reverse_cons, List.reverse_append]
        simp only [List.reverse_cons, List.reverse_nil, List.nil_append,
          List.cons_append, headUnsat]
        decide
    have hdrop : dropWs (serNode (.elem tag attrs cs)) =
        serNode (.elem tag attrs cs) := by
      rw [hM]
      exact dropWs_cons_of_not_ws _ (by decide)
    unfold parseTXML
    rw [hdata, htrim, hdrop]
    rw [if_pos (by rw [hM]; rfl)]
    have hparse := (rt_main ((serNode (.elem tag attrs cs)).length + 1)).1
      tag attrs cs [] hg (by omega)
    rw [List.append_nil] at hparse
    rw [hparse]
    dsimp only
    rw [if_neg (by
      simp only [ne_eq, Decidable.not_not]
      exact htag)]
    rw [if_pos (by rfl)]

/-- Witness for the amended C2. -/
theorem c2_roundtrip_good_witness :
    parseTXML (jsxToTXML (.elem "App" [("title", "Hi")]
      [.elem "Body" [] [.text "hello ",
        .elem "Button" [("onClick", "go")] [.text "Click"]]])) =
      .ok (.elem "App" [("title", "Hi")]
        [.elem "Body" [] [.text "hello ",
          .elem "Button" [("onClick", "go")] [.text "Click"]]]) :=
  c2_roundtrip_good _ (by decide) (by decide)
